import Mathlib

/-!
The glauth handler of ocis (`pkg/server/glauth/handler.go`).

A shallow embedding of the LDAP bridge: the filter compiler `parseFilter`, the
value escaping `escapeValue`, the entry projection `mapAccounts` and the two
request handlers `Bind` and `Search`, followed by theorems about them.

Conventions of the embedding.

* Go strings are Lean `String`s, and every library function on strings is
  defined on the list of characters (`String.data`).  Every separator the
  handler works with (the quote, the comma, `cn=`) is ASCII, so working on
  characters instead of UTF-8 bytes does not change any result on valid UTF-8.
* `strings.ToLower` lower-cases rune by rune with `unicode.ToLower`, whose
  table belongs to the Go library; the rune mapping is the parameter `L` of
  every definition that lower-cases (`RuneLower`).
* The handler's logger is not modelled.  The process-wide counters
  (`stats.Frontend.Add`) and the calls made to the accounts service are part of
  the explicit state `World`.
-/

set_option autoImplicit false

namespace Glauth

/-! ## The Go `strings` functions the handler uses -/

/-- The scanning loop of `strings.Replace` for a non-empty `old`.  The counter
says how many characters of an occurrence of `old` that was just replaced are
still to be skipped, so that occurrences do not overlap. -/
def replaceFrom (old new : List Char) : Nat → List Char → List Char
  | _, [] => []
  | skip + 1, _ :: cs => replaceFrom old new skip cs
  | 0, c :: cs =>
    if old.isPrefixOf (c :: cs) then new ++ replaceFrom old new (old.length - 1) cs
    else c :: replaceFrom old new 0 cs

/-- Go `strings.ReplaceAll(s, old, new)`: every non-overlapping occurrence of
`old`, found from left to right, is replaced by `new`.  An empty `old` matches
before every character and at the end. -/
def ReplaceAll (s old new : String) : String :=
  if old.data = [] then ⟨new.data ++ s.data.flatMap (fun c => c :: new.data)⟩
  else ⟨replaceFrom old.data new.data 0 s.data⟩

/-- The rune mapping `unicode.ToLower` of the Go library, by which
`strings.ToLower` lower-cases a string rune by rune.  Its table of case ranges
is not part of the repository, so the mapping is a parameter of the embedding.
The two facts about it that the statements use are recorded with it: on ASCII it
folds the letters `A`..`Z` and leaves every other character (the first branch of
`unicode.ToLower`), and the lower-case form of a rune is its own lower-case
form. -/
structure RuneLower where
  toLower : Char → Char
  ascii : ∀ c : Char, c.toNat < 128 → toLower c = Char.toLower c
  idem : ∀ c : Char, toLower (toLower c) = toLower c

/-- The mapping that folds the ASCII letters and leaves every other rune; it is
`unicode.ToLower` on ASCII text, and the concrete requests below are ASCII. -/
def asciiLower : RuneLower where
  toLower := Char.toLower
  ascii := fun _ _ => rfl
  idem := by
    intro c
    unfold Char.toLower
    by_cases h : c.toNat ≥ 65 ∧ c.toNat ≤ 90
    · simp only [h, and_self, if_true]
      have key : ∀ n : Nat, n < 55296 → (Char.ofNat n).toNat = n := by
        intro n hn
        have hvalid : n.isValidChar := Or.inl hn
        simp only [Char.ofNat, hvalid, dite_true, Char.ofNatAux, Char.toNat]
        rfl
      have hv : (Char.ofNat (c.toNat + 32)).toNat = c.toNat + 32 := key _ (by omega)
      simp only [hv]
      have hn : ¬ (c.toNat + 32 ≥ 65 ∧ c.toNat + 32 ≤ 90) := by omega
      simp only [hn, if_false]
    · simp only [h, if_false]

/-- Go `strings.ToLower`: the string lower-cased rune by rune. -/
def ToLower (L : RuneLower) (s : String) : String := ⟨s.data.map L.toLower⟩

/-- The text is ASCII (`isASCII` of the Go library). -/
def isASCII (s : String) : Bool := s.data.all (fun c => decide (c.toNat < 128))

/-- Go `strings.HasSuffix(s, suffix)`. -/
def HasSuffix (s suffix : String) : Bool := suffix.data.isSuffixOf s.data

/-- Go `strings.HasPrefix(s, pre)`. -/
def HasPrefix (s pre : String) : Bool := pre.data.isPrefixOf s.data

/-- Go `strings.TrimSuffix(s, suffix)`. -/
def TrimSuffix (s suffix : String) : String :=
  if HasSuffix s suffix then ⟨s.data.take (s.data.length - suffix.data.length)⟩ else s

/-- Go `strings.TrimPrefix(s, pre)`. -/
def TrimPrefix (s pre : String) : String :=
  if HasPrefix s pre then ⟨s.data.drop pre.data.length⟩ else s

/-- Go `strings.Join(elems, sep)`. -/
def Join : List String → String → String
  | [], _ => ""
  | [a], _ => a
  | a :: b :: rest, sep => a ++ sep ++ Join (b :: rest) sep

/-- The loop of `strings.Split(s, ",")` for the one-character separator the
handler uses: `cur` is the component being read, in reverse. -/
def splitOnChar (sep : Char) : List Char → List Char → List String
  | cur, [] => [⟨cur.reverse⟩]
  | cur, c :: cs =>
    if c = sep then ⟨cur.reverse⟩ :: splitOnChar sep [] cs
    else splitOnChar sep (c :: cur) cs

/-- Go `strings.Split(s, ",")`. -/
def SplitComma (s : String) : List String := splitOnChar ',' [] s.data

/-! ## `escapeValue` -/

/-- Source: `escapeValue`, `strings.ReplaceAll(value, "'", "''")`. -/
def escapeValue (value : String) : String := ReplaceAll value "'" "''"

/-- The single-quote character. -/
def quoteChar : Char := Char.ofNat 39

/-- What the specification says of escaping, character by character: a quote
becomes two quotes, any other character stays. -/
def doubleQuotes (v : List Char) : List Char :=
  v.flatMap (fun c => if c = quoteChar then [quoteChar, quoteChar] else [c])


/-! ## The filter tree handed to the compiler -/

/-- The part of `ber.Packet` that `parseFilter` reads.  `Value` has the
interface type in Go and `parseFilter` asserts it to be a string; every packet
that reaches `parseFilter` is built by `ldap.CompileFilter`, whose leaf packets
carry strings, so the field is a string here (empty on constructed packets). -/
structure Packet where
  Tag : Nat
  Value : String
  Children : List Packet

/-- Filter choice tags of the `ldap` library. -/
def FilterAnd : Nat := 0
/-- Filter choice tag. -/
def FilterOr : Nat := 1
/-- Filter choice tag. -/
def FilterNot : Nat := 2
/-- Filter choice tag. -/
def FilterEqualityMatch : Nat := 3
/-- Tag of the string leaves, `ber.TagOctetString`. -/
def TagOctetString : Nat := 4

/-- The table `ldap.FilterMap` of the `ldap` library; a tag that is not a key
yields the empty string, as a Go map lookup does. -/
def FilterMap (tag : Nat) : String :=
  match tag with
  | 0 => "And"
  | 1 => "Or"
  | 2 => "Not"
  | 3 => "Equality Match"
  | 4 => "Substrings"
  | 5 => "Greater Or Equal"
  | 6 => "Less Or Equal"
  | 7 => "Present"
  | 8 => "Approx Match"
  | 9 => "Extensible Match"
  | _ => ""

/-- Source: `queryType` with its constants; `unset` is the empty string, the
value the comment on `parseFilter` calls "not determined". -/
inductive queryType where
  | unset
  | usersQuery
  | groupsQuery
  deriving DecidableEq, Repr

/-- Source: `parseFilter`, case "Equality Match", the switch on the attribute
in lower case.  The named results `qtype` and `q` keep their zero values where the
source does not assign them. -/
def parseEquality (attr value : String) : Except String (queryType × String) :=
  if attr = "objectclass" then
    if value ∈ ["posixaccount", "shadowaccount", "users", "person", "inetorgperson",
        "organizationalperson"] then .ok (.usersQuery, "")
    else if value ∈ ["posixgroup", "groups"] then .ok (.groupsQuery, "")
    else .ok (.unset, "")
  else if attr = "cn" ∨ attr = "uid" then
    .ok (.unset, "preferred_name eq '" ++ escapeValue value ++ "'")
  else if attr = "mail" then
    .ok (.unset, "mail eq '" ++ escapeValue value ++ "'")
  else if attr = "displayname" then
    .ok (.unset, "display_name eq '" ++ escapeValue value ++ "'")
  else if attr = "uidnumber" then
    .ok (.unset, "uid_number eq '" ++ escapeValue value ++ "'")
  else if attr = "gidnumber" then
    .ok (.unset, "gid_number eq '" ++ escapeValue value ++ "'")
  else if attr = "description" then
    .ok (.unset, "description eq '" ++ escapeValue value ++ "'")
  else .error ("filter by " ++ attr ++ " not implmented")

/-- Source: `parseFilter`, one round of the loop over the children of an And or
an Or node, after the child compiled to `(qt, subQuery)`: the domain is
reconciled and a non-empty clause is appended. -/
def reconcile (qtype : queryType) (subQueries : List String) (qt : queryType)
    (subQuery : String) : Except String (queryType × List String) :=
  let subQueries1 := if subQuery ≠ "" then subQueries ++ [subQuery] else subQueries
  if qtype = .unset then .ok (qt, subQueries1)
  else if qt ≠ .unset ∧ qt ≠ qtype then .error "mixing user and group filters not supported"
  else .ok (qtype, subQueries1)

mutual
/-- Source: `parseFilter`. -/
def parseFilter (L : RuneLower) : Packet → Except String (queryType × String)
  | ⟨tag, _, children⟩ =>
    if FilterMap tag = "Equality Match" then
      match children with
      | [a, v] => parseEquality (ToLower L a.Value) v.Value
      | _ => .error "equality match must have only two children"
    else if FilterMap tag = "And" then
      match parseChildren L children .unset [] with
      | .error e => .error e
      | .ok (qtype, subQueries) => .ok (qtype, Join subQueries " and ")
    else if FilterMap tag = "Or" then
      match parseChildren L children .unset [] with
      | .error e => .error e
      | .ok (qtype, subQueries) => .ok (qtype, Join subQueries " or ")
    else if FilterMap tag = "Not" then
      match children with
      | [child] =>
        match parseFilter L child with
        | .error e => .error e
        | .ok (qtype, subQuery) =>
          .ok (qtype, if subQuery ≠ "" then "not " ++ subQuery else "")
      | _ => .error "not filter must have only one child"
    else .ok (.unset, "")
/-- Source: `parseFilter`, the loop `for _, child := range f.Children` of the
And and Or cases, from the state `(qtype, subQueries)`. -/
def parseChildren (L : RuneLower) : List Packet → queryType → List String →
    Except String (queryType × List String)
  | [], qtype, subQueries => .ok (qtype, subQueries)
  | child :: rest, qtype, subQueries =>
    match parseFilter L child with
    | .error e => .error e
    | .ok (qt, subQuery) =>
      match reconcile qtype subQueries qt subQuery with
      | .error e => .error e
      | .ok (qtype1, subQueries1) => parseChildren L rest qtype1 subQueries1
end

/-- The filter tree of the specification (FilterNode). -/
inductive FilterNode where
  | EqualityMatch (attr value : String)
  | And (children : List FilterNode)
  | Or (children : List FilterNode)
  | Not (child : FilterNode)

mutual
/-- The packet `ldap.CompileFilter` builds for a filter tree: an equality match
is a node with two string leaves, the attribute and the value. -/
def FilterNode.toPacket : FilterNode → Packet
  | .EqualityMatch attr value =>
    ⟨FilterEqualityMatch, "", [⟨TagOctetString, attr, []⟩, ⟨TagOctetString, value, []⟩]⟩
  | .And children => ⟨FilterAnd, "", FilterNode.toPackets children⟩
  | .Or children => ⟨FilterOr, "", FilterNode.toPackets children⟩
  | .Not child => ⟨FilterNot, "", [FilterNode.toPacket child]⟩
/-- The packets of a list of filter trees. -/
def FilterNode.toPackets : List FilterNode → List Packet
  | [] => []
  | c :: cs => FilterNode.toPacket c :: FilterNode.toPackets cs
end


/-! ## Configuration, accounts and entries -/

/-- The fields of `config.Backend` the handler reads. -/
structure Backend where
  BaseDN : String
  NameFormat : String
  GroupFormat : String

/-- The part of `config.Config` the handler reads. -/
structure Config where
  Backend : Backend

/-- The fields of `accounts.Account` the handler reads. -/
structure Account where
  PreferredName : String
  DisplayName : String
  Mail : String
  UidNumber : Int
  GidNumber : Int
  Description : String

/-- Library type `ldap.EntryAttribute`. -/
structure EntryAttribute where
  Name : String
  Values : List String

/-- Library type `ldap.Entry`. -/
structure Entry where
  DN : String
  Attributes : List EntryAttribute

/-- The result codes of the `ldap` library the handler returns. -/
inductive LDAPResultCode where
  | LDAPResultSuccess
  | LDAPResultOperationsError
  | LDAPResultInvalidCredentials
  | LDAPResultInsufficientAccessRights
  deriving DecidableEq, Repr

/-- Library type `ldap.ServerSearchResult`; a field the source leaves out of a
literal is the empty list. -/
structure ServerSearchResult where
  Entries : List Entry
  Referrals : List String
  Controls : List String
  ResultCode : LDAPResultCode

/-- Library type `ldap.SearchRequest`, the fields the handler reads. -/
structure SearchRequest where
  BaseDN : String
  Filter : String

/-- The counters of `stats.Frontend` the handler adds to. -/
structure Stats where
  bind_reqs : Nat
  bind_successes : Nat
  search_reqs : Nat
  search_successes : Nat
  closes : Nat

/-- What a request can change outside the handler: the counters, and the
queries sent to the accounts service, oldest first. -/
structure World where
  stats : Stats
  calls : List String

/-- Source: `ocisHandler`.  The accounts service `as` answers a query with an
error or with the list of matching accounts. -/
structure ocisHandler where
  as : String → Except String (List Account)
  cfg : Config

/-- Source: the function `attribute`, the constructor of an entry attribute; its
name is a reserved word of Lean, hence `mkAttribute`. -/
def mkAttribute (name : String) (values : List String) : EntryAttribute :=
  ⟨name, values⟩

/-- Go `strconv.FormatInt(n, 10)`. -/
def FormatInt (n : Int) : String :=
  if n < 0 then "-" ++ Nat.repr n.natAbs else Nat.repr n.toNat

/-- Source: `mapAccounts`, the body of the loop for one account. -/
def mapAccount (h : ocisHandler) (acc : Account) : Entry :=
  let attrs := [
    mkAttribute "objectClass"
      ["posixAccount", "inetOrgPerson", "organizationalPerson", "Person", "top"],
    mkAttribute "cn" [acc.PreferredName],
    mkAttribute "uid" [acc.PreferredName],
    mkAttribute "sn" [acc.PreferredName]]
  let attrs := if acc.DisplayName ≠ "" then
    attrs ++ [mkAttribute "displayName" [acc.DisplayName]] else attrs
  let attrs := if acc.Mail ≠ "" then attrs ++ [mkAttribute "mail" [acc.Mail]] else attrs
  let attrs := if acc.UidNumber ≠ 0 then
    attrs ++ [mkAttribute "uidnumber" [FormatInt acc.UidNumber]] else attrs
  let attrs := if acc.GidNumber ≠ 0 then
    attrs ++ [mkAttribute "gidnumber" [FormatInt acc.GidNumber]] else attrs
  let attrs := if acc.Description ≠ "" then
    attrs ++ [mkAttribute "description" [acc.Description]] else attrs
  let dn := h.cfg.Backend.NameFormat ++ "=" ++ acc.PreferredName ++ "," ++
    h.cfg.Backend.GroupFormat ++ "=" ++ "users" ++ "," ++ h.cfg.Backend.BaseDN
  ⟨dn, attrs⟩

/-- Source: `mapAccounts`. -/
def mapAccounts (h : ocisHandler) (accounts : List Account) : List Entry :=
  accounts.map (mapAccount h)

/-! ## The request handlers -/

/-- Counter update `stats.Frontend.Add("bind_reqs", 1)`. -/
def World.addBindReq (w : World) : World :=
  { w with stats := { w.stats with bind_reqs := w.stats.bind_reqs + 1 } }

/-- Counter update `stats.Frontend.Add("bind_successes", 1)`. -/
def World.addBindSuccess (w : World) : World :=
  { w with stats := { w.stats with bind_successes := w.stats.bind_successes + 1 } }

/-- Counter update `stats.Frontend.Add("search_reqs", 1)`. -/
def World.addSearchReq (w : World) : World :=
  { w with stats := { w.stats with search_reqs := w.stats.search_reqs + 1 } }

/-- Counter update `stats.Frontend.Add("search_successes", 1)`. -/
def World.addSearchSuccess (w : World) : World :=
  { w with stats := { w.stats with search_successes := w.stats.search_successes + 1 } }

/-- One call `h.as.ListAccounts` with the given query: the call is recorded and
the answer of the service returned. -/
def ListAccounts (h : ocisHandler) (query : String) (w : World) :
    Except String (List Account) × World :=
  (h.as query, { w with calls := w.calls ++ [query] })

/-- Source: `ocisHandler.Bind`, the query string of the credential check,
`fmt.Sprintf("login eq '%s' and password eq '%s'", userName, bindSimplePw)`. -/
def bindQuery (userName bindSimplePw : String) : String :=
  "login eq '" ++ userName ++ "' and password eq '" ++ bindSimplePw ++ "'"

/-- Source: `ocisHandler.Bind`.  The error result is `nil` on every path.
`strings.Split` never returns an empty slice, so `parts[0]` exists. -/
def Bind (L : RuneLower) (h : ocisHandler) (bindDN bindSimplePw : String) (w : World) :
    (LDAPResultCode × Option String) × World :=
  let bindDN := ToLower L bindDN
  let baseDN := ToLower L ("," ++ h.cfg.Backend.BaseDN)
  let w := w.addBindReq
  if !HasSuffix bindDN baseDN then
    ((.LDAPResultInvalidCredentials, none), w)
  else
    let parts := SplitComma (TrimSuffix bindDN baseDN)
    if parts.length > 2 then
      ((.LDAPResultInvalidCredentials, none), w)
    else
      let userName := TrimPrefix (parts.headD "") "cn="
      match ListAccounts h (bindQuery userName bindSimplePw) w with
      | (.error _, w) => ((.LDAPResultInvalidCredentials, none), w)
      | (.ok _, w) => ((.LDAPResultSuccess, none), w.addBindSuccess)

/-- Source: `ocisHandler.Search`, the three checks that come before the filter is
read: the bind name is not empty, it ends in the lower-cased `"," + BaseDN`, and
the lower-cased search base ends in `BaseDN` as configured. -/
def searchGuard (L : RuneLower) (h : ocisHandler) (bindDN : String)
    (searchReq : SearchRequest) : Bool :=
  !((ToLower L bindDN).length < 1) &&
  HasSuffix (ToLower L bindDN) (ToLower L ("," ++ h.cfg.Backend.BaseDN)) &&
  HasSuffix (ToLower L searchReq.BaseDN) h.cfg.Backend.BaseDN

/-- Source: `ocisHandler.Search`.  `CompileFilter` is the parser
`ldap.CompileFilter` of the `ldap` library, from the filter string to the
packet tree. -/
def Search (L : RuneLower) (CompileFilter : String → Except String Packet) (h : ocisHandler)
    (bindDN : String) (searchReq : SearchRequest) (w : World) :
    (ServerSearchResult × Option String) × World :=
  let bindDN := ToLower L bindDN
  let baseDN := ToLower L ("," ++ h.cfg.Backend.BaseDN)
  let searchBaseDN := ToLower L searchReq.BaseDN
  let w := w.addSearchReq
  if bindDN.length < 1 then
    ((⟨[], [], [], .LDAPResultInsufficientAccessRights⟩,
      some ("search error: Anonymous BindDN not allowed " ++ bindDN)), w)
  else if !HasSuffix bindDN baseDN then
    ((⟨[], [], [], .LDAPResultInsufficientAccessRights⟩,
      some ("search error: BindDN " ++ bindDN ++ " not in our BaseDN " ++
        h.cfg.Backend.BaseDN)), w)
  else if !HasSuffix searchBaseDN h.cfg.Backend.BaseDN then
    ((⟨[], [], [], .LDAPResultInsufficientAccessRights⟩,
      some ("search error: search BaseDN " ++ searchBaseDN ++ " is not in our BaseDN " ++
        h.cfg.Backend.BaseDN)), w)
  else
    let parsed : Except String (queryType × String) :=
      if searchReq.Filter = "(&)" then .ok (.unset, "")
      else
        match CompileFilter searchReq.Filter with
        | .error _ => .error ("Search Error: error parsing filter: " ++ searchReq.Filter)
        | .ok cf =>
          match parseFilter L cf with
          | .error _ => .error ("Search Error: error parsing filter: " ++ searchReq.Filter)
          | .ok r => .ok r
    match parsed with
    | .error e => ((⟨[], [], [], .LDAPResultOperationsError⟩, some e), w)
    | .ok (qtype, query) =>
      if qtype = .usersQuery then
        match ListAccounts h query w with
        | (.error _, w) =>
          ((⟨[], [], [], .LDAPResultOperationsError⟩,
            some "search error: error getting users"), w)
        | (.ok accounts, w) =>
          ((⟨mapAccounts h accounts, [], [], .LDAPResultSuccess⟩, none), w.addSearchSuccess)
      else
        ((⟨[], [], [], .LDAPResultSuccess⟩, none), w.addSearchSuccess)

/-- Source: `ocisHandler.Close`. -/
def Close (w : World) : Option String × World :=
  (none, { w with stats := { w.stats with closes := w.stats.closes + 1 } })

/-! ## Predicates on filter trees used by the statements -/

/-- The attributes, in lower case, that the Equality Match case of `parseFilter`
has a branch for. -/
def supportedAttribute (a : String) : Bool :=
  decide (a ∈ ["objectclass", "cn", "uid", "mail", "displayname", "uidnumber", "gidnumber",
    "description"])

mutual
/-- The tree contains, at some depth, an equality match whose lower-cased
attribute is not a supported one. -/
def FilterNode.hasUnsupported (L : RuneLower) : FilterNode → Bool
  | .EqualityMatch a _ => !supportedAttribute (ToLower L a)
  | .And children => FilterNode.anyUnsupported L children
  | .Or children => FilterNode.anyUnsupported L children
  | .Not child => FilterNode.hasUnsupported L child
/-- One of the trees of the list contains such an equality match. -/
def FilterNode.anyUnsupported (L : RuneLower) : List FilterNode → Bool
  | [] => false
  | c :: cs => FilterNode.hasUnsupported L c || FilterNode.anyUnsupported L cs
end


/-- The filter `(|(&(objectClass=posixaccount)(cn=einstein))(&(objectClass=posixgroup)(cn=users)))`
of the comment on `parseFilter`, as a tree. -/
def mixedFilter : FilterNode :=
  .Or [.And [.EqualityMatch "objectClass" "posixaccount", .EqualityMatch "cn" "einstein"],
       .And [.EqualityMatch "objectClass" "posixgroup", .EqualityMatch "cn" "users"]]

/-- The text of `mixedFilter`. -/
def mixedFilterText : String :=
  "(|(&(objectClass=posixaccount)(cn=einstein))(&(objectClass=posixgroup)(cn=users)))"

/-- An And node with a users child, then a child on an unsupported attribute,
then a groups child: `(&(objectClass=posixaccount)(foo=bar)(objectClass=posixgroup))`. -/
def mixedWithUnsupported : List FilterNode :=
  [.EqualityMatch "objectClass" "posixaccount", .EqualityMatch "foo" "bar",
   .EqualityMatch "objectClass" "posixgroup"]


/-! ## The boolean reading of a filter tree -/

mutual
/-- The truth value of a filter tree (RFC 4511) when `holds a v` says whether
an entry satisfies the equality match of attribute `a` with value `v`: And is
true when all children are, Or when one child is, Not negates. -/
def FilterNode.eval (holds : String → String → Bool) : FilterNode → Bool
  | .EqualityMatch a v => holds a v
  | .And children => FilterNode.evalAll holds children
  | .Or children => FilterNode.evalAny holds children
  | .Not child => !FilterNode.eval holds child
/-- All trees of the list are true. -/
def FilterNode.evalAll (holds : String → String → Bool) : List FilterNode → Bool
  | [] => true
  | c :: cs => FilterNode.eval holds c && FilterNode.evalAll holds cs
/-- One tree of the list is true. -/
def FilterNode.evalAny (holds : String → String → Bool) : List FilterNode → Bool
  | [] => false
  | c :: cs => FilterNode.eval holds c || FilterNode.evalAny holds cs
end

mutual
/-- Every equality match of the tree is on a supported attribute other than
objectclass. -/
def FilterNode.onlyClauses (L : RuneLower) : FilterNode → Bool
  | .EqualityMatch a _ => supportedAttribute (ToLower L a) && decide (ToLower L a ≠ "objectclass")
  | .And children => FilterNode.allOnlyClauses L children
  | .Or children => FilterNode.allOnlyClauses L children
  | .Not child => FilterNode.onlyClauses L child
/-- The same for every tree of a list. -/
def FilterNode.allOnlyClauses (L : RuneLower) : List FilterNode → Bool
  | [] => true
  | c :: cs => FilterNode.onlyClauses L c && FilterNode.allOnlyClauses L cs
end

/-- The filter `(&(|(cn=a)(mail=b))(description=c))`. -/
def orUnderAnd : FilterNode :=
  .And [.Or [.EqualityMatch "cn" "a", .EqualityMatch "mail" "b"],
        .EqualityMatch "description" "c"]

/-- The filter `(|(cn=a)(&(mail=b)(description=c)))`. -/
def andUnderOr : FilterNode :=
  .Or [.EqualityMatch "cn" "a",
       .And [.EqualityMatch "mail" "b", .EqualityMatch "description" "c"]]

/-- The filter `(!(&(cn=a)(mail=b)))`. -/
def notOverAnd : FilterNode :=
  .Not (.And [.EqualityMatch "cn" "a", .EqualityMatch "mail" "b"])

/-- The filter `(&(!(cn=a))(mail=b))`. -/
def andOfNot : FilterNode :=
  .And [.Not (.EqualityMatch "cn" "a"), .EqualityMatch "mail" "b"]

/-- An entry whose cn is `a` and which satisfies no other equality match. -/
def onlyCn (a _v : String) : Bool := decide (a = "cn")

/-- An entry that satisfies no equality match. -/
def noMatch (_a _v : String) : Bool := false


/-! ## Concrete requests used by the statements -/

/-- A configuration whose base name is written in upper case. -/
def upperCaseConfig : Config := ⟨⟨"DC=example,DC=com", "cn", "ou"⟩⟩

/-- A configuration with the base name `dc=example,dc=com`. -/
def exampleConfig : Config := ⟨⟨"dc=example,dc=com", "cn", "ou"⟩⟩

/-- The account of alice. -/
def aliceAccount : Account := ⟨"alice", "Alice", "alice@example.com", 1000, 1000, ""⟩

/-- A handler over `exampleConfig` whose accounts service answers every query
with the account of alice. -/
def exampleHandler : ocisHandler := ⟨fun _ => .ok [aliceAccount], exampleConfig⟩

/-- A filter parser that answers the tree of `(&(objectclass=posixaccount)(uid=alice))`. -/
def exampleCompileFilter (_filter : String) : Except String Packet :=
  .ok (FilterNode.And [.EqualityMatch "objectclass" "posixaccount",
    .EqualityMatch "uid" "alice"]).toPacket

/-- A state with all counters at zero and no call made. -/
def emptyWorld : World := ⟨⟨0, 0, 0, 0, 0⟩, []⟩


/-! ## The checks of `Bind` and further concrete requests -/

/-- Source: `ocisHandler.Bind`, the two checks that come before the credential
query: the lower-cased bind name ends in the lower-cased `"," + BaseDN`, and what
stands before that suffix splits on `","` into at most two parts. -/
def bindGuard (L : RuneLower) (h : ocisHandler) (bindDN : String) : Bool :=
  HasSuffix (ToLower L bindDN) (ToLower L ("," ++ h.cfg.Backend.BaseDN)) &&
  decide ((SplitComma (TrimSuffix (ToLower L bindDN)
    (ToLower L ("," ++ h.cfg.Backend.BaseDN)))).length ≤ 2)

/-- Source: `ocisHandler.Bind`, the user name put into the credential query:
the first part of the lower-cased bind name without its suffix, with a leading
`cn=` removed. -/
def bindUserName (L : RuneLower) (h : ocisHandler) (bindDN : String) : String :=
  TrimPrefix ((SplitComma (TrimSuffix (ToLower L bindDN)
    (ToLower L ("," ++ h.cfg.Backend.BaseDN)))).headD "") "cn="

/-- A handler over `exampleConfig` whose accounts service answers every query
with the empty list and no error. -/
def emptyAnswerHandler : ocisHandler := ⟨fun _ => .ok [], exampleConfig⟩

/-- Go `strings.Contains(s, substr)`. -/
def Contains (s substr : String) : Bool :=
  s.data.tails.any (fun t => substr.data.isPrefixOf t)

/-- A filter parser that answers the tree of `(foo=bar)`. -/
def fooCompileFilter (_filter : String) : Except String Packet :=
  .ok (FilterNode.EqualityMatch "foo" "bar").toPacket


/-- An account with only a preferred name. -/
def bareAccount : Account := ⟨"bob", "", "", 0, 0, ""⟩

/-- An account with a negative uid number. -/
def negativeAccount : Account := ⟨"carol", "", "", -5, 0, ""⟩


/-- The domain rule of the specification for And and Or: the first domain of
the list that is not Unset, and Unset when there is none. -/
def firstDomain : List queryType → queryType
  | [] => .unset
  | d :: ds => if d ≠ .unset then d else firstDomain ds


/-! ## Reading quoted literals -/

/-- The lengths of the maximal runs of single quotes of a text, from left to
right; `cur` is the length of the run being read. -/
def quoteRunsFrom : List Char → Nat → List Nat
  | [], cur => if cur = 0 then [] else [cur]
  | c :: cs, cur =>
    if c = quoteChar then quoteRunsFrom cs (cur + 1)
    else if cur = 0 then quoteRunsFrom cs 0
    else cur :: quoteRunsFrom cs 0

/-- The lengths of the maximal runs of single quotes of a text. -/
def quoteRuns (text : List Char) : List Nat := quoteRunsFrom text 0

/-- The reading of a quoted literal of the backend language after its opening
quote, where two adjacent quotes stand for one quote of the value: the index of
the quote that closes the literal, if there is one.  `pending` says that the
character before index `i` is a quote not yet paired. -/
def closingQuoteFrom : List Char → Bool → Nat → Option Nat
  | [], pending, i => if pending then some (i - 1) else none
  | c :: cs, false, i =>
    if c = quoteChar then closingQuoteFrom cs true (i + 1)
    else closingQuoteFrom cs false (i + 1)
  | c :: cs, true, i =>
    if c = quoteChar then closingQuoteFrom cs false (i + 1)
    else some (i - 1)

/-- The index of the closing quote in the text that follows an opening quote. -/
def closingQuote (text : List Char) : Option Nat := closingQuoteFrom text false 0


/-- The attribute list of a projected entry as the specification words it, with
the numeric attributes named `uidNumber` and `gidNumber`. -/
def specAttributes (acc : Account) : List EntryAttribute :=
  [⟨"objectClass", ["posixAccount", "inetOrgPerson", "organizationalPerson", "Person", "top"]⟩,
    ⟨"cn", [acc.PreferredName]⟩, ⟨"uid", [acc.PreferredName]⟩, ⟨"sn", [acc.PreferredName]⟩]
  ++ (if acc.DisplayName ≠ "" then [⟨"displayName", [acc.DisplayName]⟩] else [])
  ++ (if acc.Mail ≠ "" then [⟨"mail", [acc.Mail]⟩] else [])
  ++ (if acc.UidNumber ≠ 0 then [⟨"uidNumber", [FormatInt acc.UidNumber]⟩] else [])
  ++ (if acc.GidNumber ≠ 0 then [⟨"gidNumber", [FormatInt acc.GidNumber]⟩] else [])
  ++ (if acc.Description ≠ "" then [⟨"description", [acc.Description]⟩] else [])


/-! ## Markers and other node kinds -/

mutual
/-- The packet tree contains, at some depth, an equality match (two children)
on objectclass, in any letter case, whose value is one of the markers of
Principals. -/
def Packet.hasUsersMarker (L : RuneLower) : Packet → Bool
  | ⟨tag, _, children⟩ =>
    (decide (FilterMap tag = "Equality Match") &&
      (match children with
        | [a, v] =>
          decide (ToLower L a.Value = "objectclass") &&
          decide (v.Value ∈ ["posixaccount", "shadowaccount", "users", "person",
            "inetorgperson", "organizationalperson"])
        | _ => false)) ||
    Packet.anyUsersMarker L children
/-- One of the packet trees of the list contains such an equality match. -/
def Packet.anyUsersMarker (L : RuneLower) : List Packet → Bool
  | [] => false
  | c :: cs => Packet.hasUsersMarker L c || Packet.anyUsersMarker L cs
end

/-- The kind of the node is none of Equality Match, And, Or, Not. -/
def otherKind (tag : Nat) : Bool :=
  decide (FilterMap tag ≠ "Equality Match" ∧ FilterMap tag ≠ "And" ∧
    FilterMap tag ≠ "Or" ∧ FilterMap tag ≠ "Not")

/-- Filter choice tag of a presence test, `ldap.FilterPresent`. -/
def FilterPresent : Nat := 7

/-- The packet of the presence test `(mail=*)`. -/
def mailPresent : Packet := ⟨FilterPresent, "mail", []⟩

/-- A filter parser that answers the tree of `(uid=alice)`. -/
def uidCompileFilter (_filter : String) : Except String Packet :=
  .ok (FilterNode.EqualityMatch "uid" "alice").toPacket


/-! ## ASCII packets -/

mutual
/-- Every string carried by the packet tree is ASCII. -/
def Packet.asciiOnly : Packet → Bool
  | ⟨_, value, children⟩ => isASCII value && Packet.allAsciiOnly children
/-- Every packet tree of the list carries ASCII strings only. -/
def Packet.allAsciiOnly : List Packet → Bool
  | [] => true
  | c :: cs => Packet.asciiOnly c && Packet.allAsciiOnly cs
end


/-- An And node whose second child conflicts with the first and whose third
child is on an unsupported attribute:
`(&(objectClass=posixaccount)(objectClass=posixgroup)(foo=bar))`. -/
def conflictBeforeUnsupported : List FilterNode :=
  [.EqualityMatch "objectClass" "posixaccount", .EqualityMatch "objectClass" "posixgroup",
   .EqualityMatch "foo" "bar"]

/-- A filter parser that answers the tree of `(|(cn=a)(!(homeDirectory=/x)))`. -/
def homeDirectoryCompileFilter (_filter : String) : Except String Packet :=
  .ok (FilterNode.Or [.EqualityMatch "cn" "a",
    .Not (.EqualityMatch "homeDirectory" "/x")]).toPacket


/-! ## Theorems -/

theorem replaceFrom_quote (v : List Char) :
    replaceFrom [quoteChar] [quoteChar, quoteChar] 0 v = doubleQuotes v := by
  induction v with
  | nil => rfl
  | cons c cs ih =>
    by_cases h : c = quoteChar
    · subst h
      simp [replaceFrom, doubleQuotes, List.isPrefixOf] at ih ⊢
      exact ih
    · have h2 : ¬ quoteChar = c := fun e => h e.symm
      simp [replaceFrom, doubleQuotes, List.isPrefixOf, h, h2] at ih ⊢
      exact ih

theorem escapeValue_data (v : String) : (escapeValue v).data = doubleQuotes v.data := by
  have h : escapeValue v = ⟨replaceFrom [quoteChar] [quoteChar, quoteChar] 0 v.data⟩ := rfl
  rw [h, replaceFrom_quote]

theorem doubleQuotes_length (v : List Char) :
    (doubleQuotes v).length = v.length + v.count quoteChar := by
  induction v with
  | nil => rfl
  | cons c cs ih =>
    have hc : doubleQuotes (c :: cs)
        = (if c = quoteChar then [quoteChar, quoteChar] else [c]) ++ doubleQuotes cs := by
      simp [doubleQuotes]
    rw [hc]
    by_cases h : c = quoteChar
    · subst h
      simp [ih]
      omega
    · simp [h, ih, List.count_cons]
      omega

/-- C1: `escapeValue` doubles every single quote and changes nothing else: its
characters are those of `v`, in order, with each quote replaced by two quotes,
and its length is the length of `v` plus the number of quotes in `v`. -/
theorem escapeValue_doubles_quotes (v : String) :
    (escapeValue v).data = doubleQuotes v.data ∧
    (escapeValue v).length = v.length + v.data.count quoteChar := by
  refine ⟨escapeValue_data v, ?_⟩
  show (escapeValue v).data.length = v.data.length + v.data.count quoteChar
  rw [escapeValue_data, doubleQuotes_length]


/-! ### Unfolding `parseFilter` -/

theorem parseFilter_equality {L : RuneLower} (v : String) (a b : Packet) :
    parseFilter L ⟨FilterEqualityMatch, v, [a, b]⟩ = parseEquality (ToLower L a.Value) b.Value := by
  rfl

theorem parseFilter_and {L : RuneLower} (v : String) (cs : List Packet) :
    parseFilter L ⟨FilterAnd, v, cs⟩ =
      match parseChildren L cs .unset [] with
      | .error e => .error e
      | .ok (qtype, subQueries) => .ok (qtype, Join subQueries " and ") := by
  rcases cs with _ | ⟨a, _ | ⟨b, _ | ⟨c, rest⟩⟩⟩ <;> rw [parseFilter] <;> first | rfl | simp

theorem parseFilter_or {L : RuneLower} (v : String) (cs : List Packet) :
    parseFilter L ⟨FilterOr, v, cs⟩ =
      match parseChildren L cs .unset [] with
      | .error e => .error e
      | .ok (qtype, subQueries) => .ok (qtype, Join subQueries " or ") := by
  rcases cs with _ | ⟨a, _ | ⟨b, _ | ⟨c, rest⟩⟩⟩ <;> rw [parseFilter] <;> first | rfl | simp

theorem parseFilter_not {L : RuneLower} (v : String) (c : Packet) :
    parseFilter L ⟨FilterNot, v, [c]⟩ =
      match parseFilter L c with
      | .error e => .error e
      | .ok (qtype, subQuery) =>
        .ok (qtype, if subQuery ≠ "" then "not " ++ subQuery else "") := by
  rfl

theorem parseChildren_nil {L : RuneLower} (qtype : queryType) (subs : List String) :
    parseChildren L [] qtype subs = .ok (qtype, subs) := by
  rfl

theorem parseChildren_cons {L : RuneLower} (c : Packet) (rest : List Packet) (qtype : queryType)
    (subs : List String) :
    parseChildren L (c :: rest) qtype subs =
      match parseFilter L c with
      | .error e => .error e
      | .ok (qt, subQuery) =>
        match reconcile qtype subs qt subQuery with
        | .error e => .error e
        | .ok (qtype1, subQueries1) => parseChildren L rest qtype1 subQueries1 := by
  rfl

theorem toPacket_equality {L : RuneLower} (a v : String) :
    parseFilter L (FilterNode.toPacket (.EqualityMatch a v)) = parseEquality (ToLower L a) v := by
  rfl

theorem parseFilter_not_arity {L : RuneLower} (v : String) (cs : List Packet) (h : cs.length ≠ 1) :
    parseFilter L ⟨FilterNot, v, cs⟩ = .error "not filter must have only one child" := by
  rcases cs with _ | ⟨a, _ | ⟨b, _ | ⟨c, rest⟩⟩⟩
  · rfl
  · exact absurd rfl h
  · rfl
  · rfl

theorem FilterMap_cases (tag : Nat) :
    (FilterMap tag = "Equality Match" ∧ tag = FilterEqualityMatch) ∨
    (FilterMap tag = "And" ∧ tag = FilterAnd) ∨
    (FilterMap tag = "Or" ∧ tag = FilterOr) ∨
    (FilterMap tag = "Not" ∧ tag = FilterNot) ∨
    otherKind tag = true := by
  rcases tag with _ | _ | _ | _ | _ | _ | _ | _ | _ | _ | n
  · exact Or.inr (Or.inl ⟨rfl, rfl⟩)
  · exact Or.inr (Or.inr (Or.inl ⟨rfl, rfl⟩))
  · exact Or.inr (Or.inr (Or.inr (Or.inl ⟨rfl, rfl⟩)))
  · exact Or.inl ⟨rfl, rfl⟩
  all_goals
    right; right; right; right
    simp [otherKind, FilterMap]

theorem parseFilter_otherKind {L : RuneLower} (tag : Nat) (v : String) (cs : List Packet)
    (h : otherKind tag = true) :
    parseFilter L ⟨tag, v, cs⟩ = .ok (.unset, "") := by
  simp only [otherKind, decide_eq_true_eq] at h
  obtain ⟨h1, h2, h3, h4⟩ := h
  rcases cs with _ | ⟨a, _ | ⟨b, _ | ⟨c, rest⟩⟩⟩ <;> simp [parseFilter, h1, h2, h3, h4]


/-! ### Facts about the string functions -/

theorem ToLower_append {L : RuneLower} (a b : String) :
    ToLower L (a ++ b) = ToLower L a ++ ToLower L b := by
  apply String.ext
  simp [ToLower]

theorem ToLower_comma {L : RuneLower} (b : String) : ToLower L ("," ++ b) = "," ++ ToLower L b := by
  rw [ToLower_append]
  have hc : ToLower L "," = "," := by
    apply String.ext
    show [L.toLower ','] = [',']
    rw [L.ascii ',' (by decide)]
    rfl
  rw [hc]

theorem ToLower_length_lt_one {L : RuneLower} (b : String) :
    (ToLower L b).length < 1 ↔ b = "" := by
  constructor
  · intro h
    apply String.ext
    have h2 : (b.data.map L.toLower).length < 1 := h
    rw [List.length_map] at h2
    exact List.length_eq_zero.mp (by omega)
  · intro h
    subst h
    exact Nat.zero_lt_one

/-- On ASCII text every admissible rune mapping gives the ASCII fold. -/
theorem ToLower_of_isASCII (L : RuneLower) (s : String) (hs : isASCII s = true) :
    ToLower L s = ToLower asciiLower s := by
  apply String.ext
  show s.data.map L.toLower = s.data.map Char.toLower
  apply List.map_congr_left
  intro c hc
  have h := List.all_eq_true.mp hs c hc
  exact L.ascii c (of_decide_eq_true h)

theorem HasSuffix_iff (s t : String) : HasSuffix s t = true ↔ t.data <:+ s.data := by
  simp [HasSuffix]

/-- A suffix of a lower-cased string is itself in lower case, so it is also a
suffix when it is lower-cased once more. -/
theorem HasSuffix_ToLower_of_raw {L : RuneLower} (s b : String)
    (h : HasSuffix (ToLower L s) b = true) :
    HasSuffix (ToLower L s) (ToLower L b) = true := by
  rw [HasSuffix_iff] at h ⊢
  obtain ⟨t, ht⟩ := h
  have hb : (ToLower L b).data = b.data := by
    have h1 : (t ++ b.data).map L.toLower = t ++ b.data := by
      rw [ht]
      simp [ToLower, L.idem]
    rw [List.map_append] at h1
    have h2 := List.append_inj_right h1 (by simp)
    exact h2
  rw [hb]
  exact ⟨t, ht⟩

/-! ### ASCII requests: every admissible rune mapping gives the same run -/

mutual
theorem parseFilter_of_ascii (L : RuneLower) :
    (p : Packet) → p.asciiOnly = true → parseFilter L p = parseFilter asciiLower p
  | ⟨tag, v, children⟩, hp => by
    unfold Packet.asciiOnly at hp
    have hkids : Packet.allAsciiOnly children = true := (Bool.and_eq_true_iff.mp hp).2
    have hrec := parseChildren_of_ascii L children hkids
    rcases FilterMap_cases tag with ⟨_, ht⟩ | ⟨_, ht⟩ | ⟨_, ht⟩ | ⟨_, ht⟩ | ho
    · subst ht
      rcases children with _ | ⟨a, _ | ⟨b, _ | ⟨c, rest⟩⟩⟩
      · rfl
      · rfl
      · rw [parseFilter_equality, parseFilter_equality]
        have ha : isASCII a.Value = true := by
          unfold Packet.allAsciiOnly at hkids
          have h1 := (Bool.and_eq_true_iff.mp hkids).1
          rcases a with ⟨t, va, ca⟩
          unfold Packet.asciiOnly at h1
          exact (Bool.and_eq_true_iff.mp h1).1
        rw [ToLower_of_isASCII L a.Value ha]
      · rfl
    · subst ht
      rw [parseFilter_and, parseFilter_and, hrec.1]
    · subst ht
      rw [parseFilter_or, parseFilter_or, hrec.1]
    · subst ht
      rcases children with _ | ⟨a, _ | ⟨b, rest⟩⟩
      · rfl
      · rw [parseFilter_not, parseFilter_not, hrec.2 a (List.mem_cons_self _ _)]
      · rw [parseFilter_not_arity _ _ (by simp), parseFilter_not_arity _ _ (by simp)]
    · rw [parseFilter_otherKind tag v children ho, parseFilter_otherKind tag v children ho]
theorem parseChildren_of_ascii (L : RuneLower) :
    (cs : List Packet) → Packet.allAsciiOnly cs = true →
      (∀ (qtype : queryType) (subs : List String),
        parseChildren L cs qtype subs = parseChildren asciiLower cs qtype subs) ∧
      (∀ c ∈ cs, parseFilter L c = parseFilter asciiLower c)
  | [], _ => by
    constructor
    · intro qtype subs
      rfl
    · intro c hc
      cases hc
  | c :: rest, hcs => by
    unfold Packet.allAsciiOnly at hcs
    obtain ⟨hc, hrest⟩ := Bool.and_eq_true_iff.mp hcs
    have ihc := parseFilter_of_ascii L c hc
    have ihr := parseChildren_of_ascii L rest hrest
    constructor
    · intro qtype subs
      rw [parseChildren_cons, parseChildren_cons, ihc]
      cases parseFilter asciiLower c with
      | error e => rfl
      | ok r =>
        obtain ⟨qt, sq⟩ := r
        dsimp only
        cases reconcile qtype subs qt sq with
        | error e => rfl
        | ok r2 =>
          obtain ⟨q1, s1⟩ := r2
          dsimp only
          exact ihr.1 q1 s1
    · intro x hx
      rcases List.mem_cons.mp hx with rfl | hin
      · exact ihc
      · exact ihr.2 x hin
end

theorem ToLower_comma_of_isASCII (L : RuneLower) (b : String) (hb : isASCII b = true) :
    ToLower L ("," ++ b) = ToLower asciiLower ("," ++ b) := by
  rw [ToLower_comma, ToLower_comma, ToLower_of_isASCII L b hb]

theorem searchGuard_of_ascii (L : RuneLower) (h : ocisHandler) (bindDN : String)
    (req : SearchRequest) (hb : isASCII bindDN = true)
    (hB : isASCII h.cfg.Backend.BaseDN = true) (hs : isASCII req.BaseDN = true) :
    searchGuard L h bindDN req = searchGuard asciiLower h bindDN req := by
  unfold searchGuard
  rw [ToLower_of_isASCII L bindDN hb, ToLower_comma_of_isASCII L _ hB,
    ToLower_of_isASCII L req.BaseDN hs]

theorem Search_of_ascii (L : RuneLower) (CF : String → Except String Packet) (h : ocisHandler)
    (bindDN : String) (req : SearchRequest) (w : World) (hb : isASCII bindDN = true)
    (hB : isASCII h.cfg.Backend.BaseDN = true) (hs : isASCII req.BaseDN = true)
    (hcf : ∀ cf, CF req.Filter = .ok cf → cf.asciiOnly = true) :
    Search L CF h bindDN req w = Search asciiLower CF h bindDN req w := by
  unfold Search
  rw [ToLower_of_isASCII L bindDN hb, ToLower_comma_of_isASCII L _ hB,
    ToLower_of_isASCII L req.BaseDN hs]
  cases hc : CF req.Filter with
  | error e => rfl
  | ok cf =>
    dsimp only
    rw [parseFilter_of_ascii L cf (hcf cf hc)]

theorem bindGuard_of_ascii (L : RuneLower) (h : ocisHandler) (bindDN : String)
    (hb : isASCII bindDN = true) (hB : isASCII h.cfg.Backend.BaseDN = true) :
    bindGuard L h bindDN = bindGuard asciiLower h bindDN := by
  unfold bindGuard
  rw [ToLower_of_isASCII L bindDN hb, ToLower_comma_of_isASCII L _ hB]

theorem Bind_of_ascii (L : RuneLower) (h : ocisHandler) (bindDN bindSimplePw : String)
    (w : World) (hb : isASCII bindDN = true) (hB : isASCII h.cfg.Backend.BaseDN = true) :
    Bind L h bindDN bindSimplePw w = Bind asciiLower h bindDN bindSimplePw w := by
  unfold Bind
  rw [ToLower_of_isASCII L bindDN hb, ToLower_comma_of_isASCII L _ hB]


/-- C2: on an equality match, `parseFilter` sees the attribute only through its
lower-case form, and for the six groups of recognised attributes it succeeds
with domain Unset and the clause `<field> eq '<escapeValue v>'`, the field being
`preferred_name` (cn, uid), `mail`, `display_name`, `uid_number`, `gid_number`
or `description`. -/
theorem parseFilter_equality_fields (L : RuneLower) (a v : String) :
    (∀ a2 : String, ToLower L a2 = ToLower L a →
      parseFilter L (FilterNode.toPacket (.EqualityMatch a2 v))
        = parseFilter L (FilterNode.toPacket (.EqualityMatch a v))) ∧
    (ToLower L a = "cn" ∨ ToLower L a = "uid" →
      parseFilter L (FilterNode.toPacket (.EqualityMatch a v))
        = .ok (.unset, "preferred_name eq '" ++ escapeValue v ++ "'")) ∧
    (ToLower L a = "mail" →
      parseFilter L (FilterNode.toPacket (.EqualityMatch a v))
        = .ok (.unset, "mail eq '" ++ escapeValue v ++ "'")) ∧
    (ToLower L a = "displayname" →
      parseFilter L (FilterNode.toPacket (.EqualityMatch a v))
        = .ok (.unset, "display_name eq '" ++ escapeValue v ++ "'")) ∧
    (ToLower L a = "uidnumber" →
      parseFilter L (FilterNode.toPacket (.EqualityMatch a v))
        = .ok (.unset, "uid_number eq '" ++ escapeValue v ++ "'")) ∧
    (ToLower L a = "gidnumber" →
      parseFilter L (FilterNode.toPacket (.EqualityMatch a v))
        = .ok (.unset, "gid_number eq '" ++ escapeValue v ++ "'")) ∧
    (ToLower L a = "description" →
      parseFilter L (FilterNode.toPacket (.EqualityMatch a v))
        = .ok (.unset, "description eq '" ++ escapeValue v ++ "'")) := by
  refine ⟨?_, ?_, ?_, ?_, ?_, ?_, ?_⟩
  · intro a2 h
    rw [toPacket_equality, toPacket_equality, h]
  · intro h
    rw [toPacket_equality]
    rcases h with h | h <;> rw [h] <;> rfl
  all_goals
    intro h
    rw [toPacket_equality, h]
    rfl

/-- C2, at the attribute `CN` and the value `o'brien`: the clause is
`preferred_name eq 'o''brien'`. -/
theorem parseFilter_equality_fields_witness :
    parseFilter asciiLower (FilterNode.toPacket (.EqualityMatch "CN" "o'brien"))
      = .ok (.unset, "preferred_name eq 'o''brien'") :=
  ((parseFilter_equality_fields asciiLower "CN" "o'brien").2.1 (Or.inl (by decide))).trans (by rfl)

/-! ### C3: an unsupported attribute is a compile error -/

theorem parseEquality_unsupported (a v : String) (h : supportedAttribute a = false) :
    parseEquality a v = .error ("filter by " ++ a ++ " not implmented") := by
  simp only [supportedAttribute, decide_eq_false_iff_not, List.mem_cons, List.mem_singleton,
    List.mem_nil_iff, or_false, not_or] at h
  obtain ⟨h1, h2, h3, h4, h5, h6, h7, h8⟩ := h
  simp [parseEquality, h1, h2, h3, h4, h5, h6, h7, h8]

mutual
theorem parseFilter_hasUnsupported {L : RuneLower} :
    (f : FilterNode) → f.hasUnsupported L = true → ∃ e, parseFilter L f.toPacket = .error e
  | .EqualityMatch a v, h => by
    rw [toPacket_equality]
    simp only [FilterNode.hasUnsupported, Bool.not_eq_true'] at h
    exact ⟨_, parseEquality_unsupported _ v h⟩
  | .And cs, h => by
    simp only [FilterNode.hasUnsupported] at h
    obtain ⟨e, he⟩ := parseChildren_anyUnsupported cs h .unset []
    exact ⟨e, by simp only [FilterNode.toPacket, parseFilter_and, he]⟩
  | .Or cs, h => by
    simp only [FilterNode.hasUnsupported] at h
    obtain ⟨e, he⟩ := parseChildren_anyUnsupported cs h .unset []
    exact ⟨e, by simp only [FilterNode.toPacket, parseFilter_or, he]⟩
  | .Not c, h => by
    simp only [FilterNode.hasUnsupported] at h
    obtain ⟨e, he⟩ := parseFilter_hasUnsupported c h
    exact ⟨e, by simp only [FilterNode.toPacket, parseFilter_not, he]⟩
theorem parseChildren_anyUnsupported {L : RuneLower} :
    (cs : List FilterNode) → FilterNode.anyUnsupported L cs = true →
      ∀ (qtype : queryType) (subs : List String),
        ∃ e, parseChildren L (FilterNode.toPackets cs) qtype subs = .error e
  | [], h => by simp [FilterNode.anyUnsupported] at h
  | c :: cs, h => by
    intro qtype subs
    simp only [FilterNode.anyUnsupported, Bool.or_eq_true] at h
    simp only [FilterNode.toPackets, parseChildren_cons]
    cases hc : parseFilter L c.toPacket with
    | error e => exact ⟨e, rfl⟩
    | ok r =>
      obtain ⟨qt, sq⟩ := r
      dsimp only
      cases hr : reconcile qtype subs qt sq with
      | error e => exact ⟨e, rfl⟩
      | ok r2 =>
        obtain ⟨q1, s1⟩ := r2
        dsimp only
        rcases h with h | h
        · obtain ⟨e, he⟩ := parseFilter_hasUnsupported c h
          rw [he] at hc
          cases hc
        · exact parseChildren_anyUnsupported cs h q1 s1
end


/-! ### Unfolding `Search` -/

theorem Search_rejected {L : RuneLower} (CF : String → Except String Packet) (h : ocisHandler)
    (bindDN : String) (req : SearchRequest) (w : World)
    (hg : searchGuard L h bindDN req = false) :
    (Search L CF h bindDN req w).1.1.ResultCode = .LDAPResultInsufficientAccessRights ∧
    (Search L CF h bindDN req w).1.1.Entries = [] ∧
    (Search L CF h bindDN req w).1.2.isSome = true ∧
    (Search L CF h bindDN req w).2 = w.addSearchReq := by
  unfold searchGuard at hg
  unfold Search
  by_cases h1 : (ToLower L bindDN).length < 1
  · simp [h1]
  · by_cases h2 : HasSuffix (ToLower L bindDN) (ToLower L ("," ++ h.cfg.Backend.BaseDN)) = true
    · by_cases h3 : HasSuffix (ToLower L req.BaseDN) h.cfg.Backend.BaseDN = true
      · simp [h1, h2, h3] at hg
      · simp [h1, h2, h3]
    · simp [h1, h2]

theorem Search_parse_error {L : RuneLower} (CF : String → Except String Packet) (h : ocisHandler)
    (bindDN : String) (req : SearchRequest) (w : World)
    (hg : searchGuard L h bindDN req = true) (hne : req.Filter ≠ "(&)")
    (hcf : ∀ cf, CF req.Filter = .ok cf → ∃ e, parseFilter L cf = .error e) :
    Search L CF h bindDN req w =
      ((⟨[], [], [], .LDAPResultOperationsError⟩,
        some ("Search Error: error parsing filter: " ++ req.Filter)), w.addSearchReq) := by
  unfold searchGuard at hg
  simp only [Bool.and_eq_true, Bool.not_eq_true', decide_eq_false_iff_not] at hg
  obtain ⟨⟨h1, h2⟩, h3⟩ := hg
  unfold Search
  simp only [h1, h2, h3, hne, if_false, Bool.not_true, Bool.false_eq_true]
  cases hc : CF req.Filter with
  | error e => rfl
  | ok cf =>
    obtain ⟨e, he⟩ := hcf cf hc
    simp only [he]

theorem Search_compiled {L : RuneLower} (CF : String → Except String Packet) (h : ocisHandler)
    (bindDN : String) (req : SearchRequest) (w : World) (d : queryType) (q : String)
    (hg : searchGuard L h bindDN req = true)
    (hq : (req.Filter = "(&)" ∧ d = .unset ∧ q = "") ∨
      (req.Filter ≠ "(&)" ∧ ∃ cf, CF req.Filter = .ok cf ∧ parseFilter L cf = .ok (d, q))) :
    Search L CF h bindDN req w =
      if d = .usersQuery then
        match h.as q with
        | .error _ =>
          ((⟨[], [], [], .LDAPResultOperationsError⟩, some "search error: error getting users"),
            { w.addSearchReq with calls := w.calls ++ [q] })
        | .ok accounts =>
          ((⟨mapAccounts h accounts, [], [], .LDAPResultSuccess⟩, none),
            World.addSearchSuccess { w.addSearchReq with calls := w.calls ++ [q] })
      else ((⟨[], [], [], .LDAPResultSuccess⟩, none), w.addSearchReq.addSearchSuccess) := by
  unfold searchGuard at hg
  simp only [Bool.and_eq_true, Bool.not_eq_true', decide_eq_false_iff_not] at hg
  obtain ⟨⟨h1, h2⟩, h3⟩ := hg
  unfold Search
  simp only [h1, h2, h3, if_false, Bool.not_true, Bool.false_eq_true]
  rcases hq with ⟨hf, hd, hq⟩ | ⟨hne, cf, hcf, hp⟩
  · subst hd hq
    simp [hf]
  · simp only [hne, if_false, hcf, hp, ListAccounts]
    by_cases hd : d = .usersQuery
    · simp only [hd, if_true]
      cases h.as q <;> rfl
    · simp only [hd, if_false]


/-! ### C3 and C7 -/

/-- C3 as stated fails for a request that does not pass the authorization
checks: the anonymous search with the filter `(foo=bar)`, whose attribute is not
supported, answers InsufficientAccessRights, not OperationsError. -/
theorem unsupported_attribute_unauthorized_counterexample :
    (∀ L : RuneLower,
      (FilterNode.EqualityMatch "foo" "bar").hasUnsupported L = true ∧
      (Search L fooCompileFilter exampleHandler "" ⟨"dc=example,dc=com", "(foo=bar)"⟩
        emptyWorld).1.1.ResultCode = .LDAPResultInsufficientAccessRights) ∧
    ¬ ∃ L : RuneLower,
      ∀ (f : FilterNode) (CF : String → Except String Packet) (h : ocisHandler)
        (bindDN : String) (req : SearchRequest) (w : World),
        f.hasUnsupported L = true → CF req.Filter = .ok f.toPacket → req.Filter ≠ "(&)" →
        (Search L CF h bindDN req w).1.1.ResultCode = .LDAPResultOperationsError := by
  have hun : ∀ L : RuneLower, (FilterNode.EqualityMatch "foo" "bar").hasUnsupported L = true := by
    intro L
    unfold FilterNode.hasUnsupported
    rw [ToLower_of_isASCII L "foo" (by decide)]
    rfl
  have hrej : ∀ L : RuneLower,
      (Search L fooCompileFilter exampleHandler "" ⟨"dc=example,dc=com", "(foo=bar)"⟩
        emptyWorld).1.1.ResultCode = .LDAPResultInsufficientAccessRights := by
    intro L
    refine (Search_rejected fooCompileFilter exampleHandler ""
      ⟨"dc=example,dc=com", "(foo=bar)"⟩ emptyWorld ?_).1
    rw [searchGuard_of_ascii L exampleHandler "" ⟨"dc=example,dc=com", "(foo=bar)"⟩
      (by decide) (by decide) (by decide)]
    rfl
  refine ⟨fun L => ⟨hun L, hrej L⟩, ?_⟩
  rintro ⟨L, hall⟩
  have h := hall (FilterNode.EqualityMatch "foo" "bar") fooCompileFilter exampleHandler ""
    ⟨"dc=example,dc=com", "(foo=bar)"⟩ emptyWorld (hun L) rfl (by decide)
  rw [hrej L] at h
  cases h

/-- C3, amended: a filter tree built from EqualityMatch, And, Or and Not that
contains, at any depth, an equality match on an attribute outside objectclass,
cn, uid, mail, displayname, uidnumber, gidnumber, description (in lower case)
does not compile: `parseFilter` returns an error.  A `Search` whose filter
string parses to such a tree never answers Success and never returns entries
without an error; its result code is OperationsError when the request passes
the authorization checks and InsufficientAccessRights when it does not. -/
theorem unsupported_attribute_is_error (L : RuneLower) (f : FilterNode)
    (hf : f.hasUnsupported L = true) :
    (∃ e, parseFilter L f.toPacket = .error e) ∧
    ∀ (CF : String → Except String Packet) (h : ocisHandler) (bindDN : String)
      (req : SearchRequest) (w : World),
      CF req.Filter = .ok f.toPacket → req.Filter ≠ "(&)" →
        (Search L CF h bindDN req w).1.1.ResultCode ≠ .LDAPResultSuccess ∧
        (Search L CF h bindDN req w).1.1.Entries = [] ∧
        (Search L CF h bindDN req w).1.2.isSome = true ∧
        (Search L CF h bindDN req w).2.calls = w.calls ∧
        (searchGuard L h bindDN req = true →
          (Search L CF h bindDN req w).1.1.ResultCode = .LDAPResultOperationsError) ∧
        (searchGuard L h bindDN req = false →
          (Search L CF h bindDN req w).1.1.ResultCode
            = .LDAPResultInsufficientAccessRights) := by
  refine ⟨parseFilter_hasUnsupported f hf, ?_⟩
  intro CF h bindDN req w hcf hne
  cases hg : searchGuard L h bindDN req with
  | false =>
    obtain ⟨h1, h2, h3, h4⟩ := Search_rejected CF h bindDN req w hg
    refine ⟨by rw [h1]; decide, h2, h3, by rw [h4]; rfl, (fun hh => by cases hh), fun _ => h1⟩
  | true =>
    have hs := Search_parse_error CF h bindDN req w hg hne (by
      intro cf hc
      rw [hcf] at hc
      cases hc
      exact parseFilter_hasUnsupported f hf)
    rw [hs]
    exact ⟨(fun hh => by cases hh), rfl, rfl, rfl, (fun _ => rfl), fun hh => by cases hh⟩

/-- C3, amended, at the filter `(|(cn=a)(!(homeDirectory=/x)))` and an
authorized search with it. -/
theorem unsupported_attribute_is_error_witness :
    (FilterNode.Or [.EqualityMatch "cn" "a",
        .Not (.EqualityMatch "homeDirectory" "/x")]).hasUnsupported asciiLower = true ∧
    (∃ e, parseFilter asciiLower (FilterNode.Or [.EqualityMatch "cn" "a",
        .Not (.EqualityMatch "homeDirectory" "/x")]).toPacket = .error e) ∧
    (Search asciiLower homeDirectoryCompileFilter exampleHandler "cn=admin,dc=example,dc=com"
      ⟨"dc=example,dc=com", "(|(cn=a)(!(homeDirectory=/x)))"⟩ emptyWorld).1.1.ResultCode
      = .LDAPResultOperationsError :=
  have hw := unsupported_attribute_is_error asciiLower
    (FilterNode.Or [.EqualityMatch "cn" "a", .Not (.EqualityMatch "homeDirectory" "/x")])
    (by rfl)
  ⟨by rfl, hw.1,
    (hw.2 homeDirectoryCompileFilter exampleHandler "cn=admin,dc=example,dc=com"
      ⟨"dc=example,dc=com", "(|(cn=a)(!(homeDirectory=/x)))"⟩ emptyWorld rfl
      (by decide)).2.2.2.2.1 (by rfl)⟩

/-- C7: when the bind name is empty, or the lower-cased bind name does not end
in `","` followed by the lower-cased configured base, or the lower-cased search
base does not end in the lower-cased configured base, `Search` answers
InsufficientAccessRights with an error, returns no entries and makes no call to
the accounts service. -/
theorem search_guard_rejects (L : RuneLower) (CF : String → Except String Packet)
    (h : ocisHandler) (bindDN : String) (req : SearchRequest) (w : World)
    (hbad : bindDN = "" ∨
      HasSuffix (ToLower L bindDN) ("," ++ ToLower L h.cfg.Backend.BaseDN) = false ∨
      HasSuffix (ToLower L req.BaseDN) (ToLower L h.cfg.Backend.BaseDN) = false) :
    (Search L CF h bindDN req w).1.1.ResultCode = .LDAPResultInsufficientAccessRights ∧
    (Search L CF h bindDN req w).1.2.isSome = true ∧
    (Search L CF h bindDN req w).1.1.Entries = [] ∧
    (Search L CF h bindDN req w).2.calls = w.calls := by
  have hg : searchGuard L h bindDN req = false := by
    cases hgd : searchGuard L h bindDN req with
    | false => rfl
    | true =>
      exfalso
      unfold searchGuard at hgd
      simp only [Bool.and_eq_true, Bool.not_eq_true', decide_eq_false_iff_not] at hgd
      obtain ⟨⟨h1, h2⟩, h3⟩ := hgd
      rcases hbad with hb | hb | hb
      · exact h1 ((ToLower_length_lt_one bindDN).mpr hb)
      · rw [ToLower_comma] at h2
        rw [h2] at hb
        cases hb
      · rw [HasSuffix_ToLower_of_raw _ _ h3] at hb
        cases hb
  obtain ⟨h1, h2, h3, h4⟩ := Search_rejected CF h bindDN req w hg
  exact ⟨h1, h3, h2, by rw [h4]; rfl⟩

/-- C7 at an anonymous bind, and at the search base `dc=other,dc=com` outside
the configured base `dc=example,dc=com`. -/
theorem search_guard_rejects_witness :
    (Search asciiLower (fun _ => .error "") exampleHandler ""
      ⟨"dc=example,dc=com", "(cn=a)"⟩ emptyWorld).1.1.ResultCode
      = .LDAPResultInsufficientAccessRights ∧
    (HasSuffix (ToLower asciiLower "dc=other,dc=com")
        (ToLower asciiLower exampleHandler.cfg.Backend.BaseDN) = false ∧
      (Search asciiLower (fun _ => .error "") exampleHandler "cn=admin,dc=example,dc=com"
        ⟨"dc=other,dc=com", "(cn=a)"⟩ emptyWorld).1.1.ResultCode
        = .LDAPResultInsufficientAccessRights) :=
  ⟨(search_guard_rejects asciiLower (fun _ => .error "") exampleHandler ""
      ⟨"dc=example,dc=com", "(cn=a)"⟩ emptyWorld (Or.inl rfl)).1,
    by rfl,
    (search_guard_rejects asciiLower (fun _ => .error "") exampleHandler
      "cn=admin,dc=example,dc=com" ⟨"dc=other,dc=com", "(cn=a)"⟩ emptyWorld
      (Or.inr (Or.inr (by rfl)))).1⟩


/-! ### C4: users and groups under one And or Or -/

theorem reconcile_unset (subs : List String) (qt : queryType) (sq : String) :
    reconcile .unset subs qt sq =
      .ok (qt, if sq ≠ "" then subs ++ [sq] else subs) := by
  simp [reconcile]

theorem reconcile_set (qtype : queryType) (subs : List String) (qt : queryType) (sq : String)
    (hq : qtype ≠ .unset) :
    reconcile qtype subs qt sq =
      if qt ≠ .unset ∧ qt ≠ qtype then .error "mixing user and group filters not supported"
      else .ok (qtype, if sq ≠ "" then subs ++ [sq] else subs) := by
  simp [reconcile, hq]

/-- Once a domain is chosen, a later child of another domain stops the loop with
an error; the error is the conflict error when no child fails on its own. -/
theorem parseChildren_conflict {L : RuneLower} (cs : List Packet) :
    ∀ (qtype : queryType) (subs : List String), qtype ≠ .unset →
      (∃ c ∈ cs, ∃ d q, parseFilter L c = .ok (d, q) ∧ d ≠ .unset ∧ d ≠ qtype) →
      ∃ e, parseChildren L cs qtype subs = .error e ∧
        ((∀ c ∈ cs, ∃ r, parseFilter L c = .ok r) →
          e = "mixing user and group filters not supported") := by
  induction cs with
  | nil =>
    intro qtype subs _ hex
    obtain ⟨c, hc, _⟩ := hex
    cases hc
  | cons c rest ih =>
    intro qtype subs hq hex
    rw [parseChildren_cons]
    cases hc : parseFilter L c with
    | error e =>
      refine ⟨e, rfl, fun hall => ?_⟩
      obtain ⟨r, hr⟩ := hall c (List.mem_cons_self _ _)
      rw [hr] at hc
      cases hc
    | ok r =>
      obtain ⟨qt, sq⟩ := r
      dsimp only
      rw [reconcile_set _ _ _ _ hq]
      by_cases hbad : qt ≠ .unset ∧ qt ≠ qtype
      · rw [if_pos hbad]
        exact ⟨_, rfl, fun _ => rfl⟩
      · rw [if_neg hbad]
        dsimp only
        obtain ⟨c2, hmem, d, q, hp, hd1, hd2⟩ := hex
        rcases List.mem_cons.mp hmem with heq | hin
        · subst heq
          rw [hp] at hc
          cases hc
          exact absurd ⟨hd1, hd2⟩ hbad
        · obtain ⟨e, he, hall⟩ := ih qtype (if sq ≠ "" then subs ++ [sq] else subs) hq
            ⟨c2, hin, d, q, hp, hd1, hd2⟩
          exact ⟨e, he, fun h2 => hall (fun x hx => h2 x (List.mem_cons_of_mem _ hx))⟩

/-- From the undetermined domain, a users child and a groups child among the
children stop the loop with an error. -/
theorem parseChildren_mixed {L : RuneLower} (cs : List Packet) :
    ∀ (subs : List String),
      (∃ c ∈ cs, ∃ q, parseFilter L c = .ok (.usersQuery, q)) →
      (∃ c ∈ cs, ∃ q, parseFilter L c = .ok (.groupsQuery, q)) →
      ∃ e, parseChildren L cs .unset subs = .error e ∧
        ((∀ c ∈ cs, ∃ r, parseFilter L c = .ok r) →
          e = "mixing user and group filters not supported") := by
  induction cs with
  | nil =>
    intro subs hu _
    obtain ⟨c, hc, _⟩ := hu
    cases hc
  | cons c rest ih =>
    intro subs hu hg
    rw [parseChildren_cons]
    cases hc : parseFilter L c with
    | error e =>
      refine ⟨e, rfl, fun hall => ?_⟩
      obtain ⟨r, hr⟩ := hall c (List.mem_cons_self _ _)
      rw [hr] at hc
      cases hc
    | ok r =>
      obtain ⟨qt, sq⟩ := r
      dsimp only
      rw [reconcile_unset]
      dsimp only
      obtain ⟨cu, hmu, qu, hpu⟩ := hu
      obtain ⟨cg, hmg, qg, hpg⟩ := hg
      have lift : ∀ e, (( ∀ x ∈ rest, ∃ r, parseFilter L x = .ok r) →
            e = "mixing user and group filters not supported") →
          ((∀ x ∈ c :: rest, ∃ r, parseFilter L x = .ok r) →
            e = "mixing user and group filters not supported") :=
        fun e hall h2 => hall (fun x hx => h2 x (List.mem_cons_of_mem _ hx))
      cases qt with
      | unset =>
        have hu2 : cu ∈ rest := by
          rcases List.mem_cons.mp hmu with heq | hin
          · subst heq
            rw [hpu] at hc
            cases hc
          · exact hin
        have hg2 : cg ∈ rest := by
          rcases List.mem_cons.mp hmg with heq | hin
          · subst heq
            rw [hpg] at hc
            cases hc
          · exact hin
        obtain ⟨e, he, hall⟩ := ih (if sq ≠ "" then subs ++ [sq] else subs)
          ⟨cu, hu2, qu, hpu⟩ ⟨cg, hg2, qg, hpg⟩
        exact ⟨e, he, lift e hall⟩
      | usersQuery =>
        have hg2 : cg ∈ rest := by
          rcases List.mem_cons.mp hmg with heq | hin
          · subst heq
            rw [hpg] at hc
            cases hc
          · exact hin
        obtain ⟨e, he, hall⟩ := parseChildren_conflict rest .usersQuery
          (if sq ≠ "" then subs ++ [sq] else subs) (by decide)
          ⟨cg, hg2, .groupsQuery, qg, hpg, by decide, by decide⟩
        exact ⟨e, he, lift e hall⟩
      | groupsQuery =>
        have hu2 : cu ∈ rest := by
          rcases List.mem_cons.mp hmu with heq | hin
          · subst heq
            rw [hpu] at hc
            cases hc
          · exact hin
        obtain ⟨e, he, hall⟩ := parseChildren_conflict rest .groupsQuery
          (if sq ≠ "" then subs ++ [sq] else subs) (by decide)
          ⟨cu, hu2, .usersQuery, qu, hpu, by decide, by decide⟩
        exact ⟨e, he, lift e hall⟩

theorem parseFilter_and_or_error {L : RuneLower} (tag : Nat) (htag : tag = FilterAnd ∨ tag = FilterOr)
    (v : String) (cs : List Packet) (e : String)
    (h : parseChildren L cs .unset [] = .error e) :
    parseFilter L ⟨tag, v, cs⟩ = .error e := by
  rcases htag with ht | ht <;> subst ht
  · rw [parseFilter_and, h]
  · rw [parseFilter_or, h]


/-- An error met in the loop over the children is the result, whatever children
follow. -/
theorem parseChildren_append_error {L : RuneLower} (l1 l2 : List Packet) :
    ∀ (qtype : queryType) (subs : List String) (e : String),
      parseChildren L l1 qtype subs = .error e →
      parseChildren L (l1 ++ l2) qtype subs = .error e := by
  induction l1 with
  | nil =>
    intro qtype subs e h
    rw [parseChildren_nil] at h
    cases h
  | cons c rest ih =>
    intro qtype subs e h
    rw [List.cons_append, parseChildren_cons]
    rw [parseChildren_cons] at h
    cases hc : parseFilter L c with
    | error e2 =>
      rw [hc] at h
      exact h
    | ok r =>
      obtain ⟨qt, sq⟩ := r
      rw [hc] at h
      dsimp only at h ⊢
      cases hr : reconcile qtype subs qt sq with
      | error e2 =>
        rw [hr] at h
        exact h
      | ok r2 =>
        obtain ⟨q1, s1⟩ := r2
        rw [hr] at h
        dsimp only at h ⊢
        exact ih q1 s1 e h

theorem parseFilter_mixedFilter (L : RuneLower) :
    parseFilter L mixedFilter.toPacket
      = .error "mixing user and group filters not supported" := by
  rw [parseFilter_of_ascii L mixedFilter.toPacket (by rfl)]
  rfl

/-- C4 as stated fails: the And node
`(&(objectClass=posixaccount)(foo=bar)(objectClass=posixgroup))` has a child
compiling to Principals and a child compiling to Groups, and `parseFilter`
returns the error of the child in between, "filter by foo not implmented", not
the domain-conflict error. -/
theorem mixed_domains_conflict_error_counterexample :
    (∀ L : RuneLower,
      parseFilter L ⟨FilterAnd, "", FilterNode.toPackets mixedWithUnsupported⟩
        = .error "filter by foo not implmented") ∧
    ¬ ∃ L : RuneLower, ∀ cs : List Packet,
        (∃ c ∈ cs, ∃ q, parseFilter L c = .ok (.usersQuery, q)) →
        (∃ c ∈ cs, ∃ q, parseFilter L c = .ok (.groupsQuery, q)) →
        parseFilter L ⟨FilterAnd, "", cs⟩
          = .error "mixing user and group filters not supported" := by
  have hev : ∀ L : RuneLower,
      parseFilter L ⟨FilterAnd, "", FilterNode.toPackets mixedWithUnsupported⟩
        = .error "filter by foo not implmented" := by
    intro L
    rw [parseFilter_of_ascii L _ (by rfl)]
    rfl
  refine ⟨hev, ?_⟩
  rintro ⟨L, hall⟩
  have hu : parseFilter L (FilterNode.toPacket (.EqualityMatch "objectClass" "posixaccount"))
      = .ok (.usersQuery, "") := by
    rw [parseFilter_of_ascii L _ (by rfl)]
    rfl
  have hg : parseFilter L (FilterNode.toPacket (.EqualityMatch "objectClass" "posixgroup"))
      = .ok (.groupsQuery, "") := by
    rw [parseFilter_of_ascii L _ (by rfl)]
    rfl
  have h := hall (FilterNode.toPackets mixedWithUnsupported)
    ⟨FilterNode.toPacket (.EqualityMatch "objectClass" "posixaccount"),
      by simp [mixedWithUnsupported, FilterNode.toPackets], "", hu⟩
    ⟨FilterNode.toPacket (.EqualityMatch "objectClass" "posixgroup"),
      by simp [mixedWithUnsupported, FilterNode.toPackets], "", hg⟩
  rw [hev L] at h
  have h3 : "filter by foo not implmented" = "mixing user and group filters not supported" :=
    Except.error.inj h
  exact absurd h3 (by decide)

/-- C4, amended: an And or Or node that has one child compiling to domain
Principals and another compiling to domain Groups, in either order and at any
positions, does not compile; the error is the domain-conflict error whenever
every child that comes before the later of the two compiles on its own, whatever
the children after it do (a child that fails before the conflict is reached has
its own error returned).  In particular the filter
`(|(&(objectClass=posixaccount)(cn=einstein))(&(objectClass=posixgroup)(cn=users)))`
fails with the domain-conflict error and a `Search` with it that passes the
authorization checks reports OperationsError. -/
theorem mixed_domains_fail (L : RuneLower) (tag : Nat) (htag : tag = FilterAnd ∨ tag = FilterOr)
    (v : String) (cs : List Packet)
    (hu : ∃ c ∈ cs, ∃ q, parseFilter L c = .ok (.usersQuery, q))
    (hg : ∃ c ∈ cs, ∃ q, parseFilter L c = .ok (.groupsQuery, q)) :
    (∃ e, parseFilter L ⟨tag, v, cs⟩ = .error e) ∧
    (∀ (pre post : List Packet) (c1 c2 : Packet) (d1 d2 : queryType) (q1 q2 : String),
      cs = pre ++ c2 :: post → c1 ∈ pre →
      (∀ x ∈ pre, ∃ r, parseFilter L x = .ok r) →
      parseFilter L c1 = .ok (d1, q1) → parseFilter L c2 = .ok (d2, q2) →
      d1 ≠ .unset → d2 ≠ .unset → d1 ≠ d2 →
      parseFilter L ⟨tag, v, cs⟩ = .error "mixing user and group filters not supported") ∧
    parseFilter L mixedFilter.toPacket = .error "mixing user and group filters not supported" ∧
    ∀ (CF : String → Except String Packet) (h : ocisHandler) (bindDN : String)
      (req : SearchRequest) (w : World),
      req.Filter = mixedFilterText → CF mixedFilterText = .ok mixedFilter.toPacket →
      searchGuard L h bindDN req = true →
        (Search L CF h bindDN req w).1.1.ResultCode = .LDAPResultOperationsError ∧
        (Search L CF h bindDN req w).1.1.Entries = [] ∧
        (Search L CF h bindDN req w).1.2.isSome = true := by
  refine ⟨?_, ?_, parseFilter_mixedFilter L, ?_⟩
  · obtain ⟨e, he, _⟩ := parseChildren_mixed cs [] hu hg
    exact ⟨e, parseFilter_and_or_error tag htag v cs e he⟩
  · intro pre post c1 c2 d1 d2 q1 q2 hcs hc1 hpre hp1 hp2 hd1 hd2 hne
    have hall : ∀ x ∈ pre ++ [c2], ∃ r, parseFilter L x = .ok r := by
      intro x hx
      rcases List.mem_append.mp hx with hx | hx
      · exact hpre x hx
      · rw [List.mem_singleton] at hx
        subst hx
        exact ⟨_, hp2⟩
    have hm1 : c1 ∈ pre ++ [c2] := List.mem_append_left _ hc1
    have hm2 : c2 ∈ pre ++ [c2] := List.mem_append_right _ (List.mem_singleton.mpr rfl)
    have hmix : ∃ e, parseChildren L (pre ++ [c2]) .unset [] = .error e ∧
        ((∀ c ∈ pre ++ [c2], ∃ r, parseFilter L c = .ok r) →
          e = "mixing user and group filters not supported") := by
      cases d1 with
      | unset => exact absurd rfl hd1
      | usersQuery =>
        cases d2 with
        | unset => exact absurd rfl hd2
        | usersQuery => exact absurd rfl hne
        | groupsQuery =>
          exact parseChildren_mixed (pre ++ [c2]) [] ⟨c1, hm1, q1, hp1⟩ ⟨c2, hm2, q2, hp2⟩
      | groupsQuery =>
        cases d2 with
        | unset => exact absurd rfl hd2
        | usersQuery =>
          exact parseChildren_mixed (pre ++ [c2]) [] ⟨c2, hm2, q2, hp2⟩ ⟨c1, hm1, q1, hp1⟩
        | groupsQuery => exact absurd rfl hne
    obtain ⟨e, he, hemix⟩ := hmix
    have he2 : e = "mixing user and group filters not supported" := hemix hall
    subst he2
    have happ := parseChildren_append_error (pre ++ [c2]) post .unset [] _ he
    have hl : pre ++ [c2] ++ post = cs := by
      rw [hcs]
      simp
    rw [hl] at happ
    exact parseFilter_and_or_error tag htag v cs _ happ
  · intro CF h bindDN req w hf hcf hguard
    have hne : req.Filter ≠ "(&)" := by
      rw [hf]
      decide
    have hs := Search_parse_error CF h bindDN req w hguard hne (by
      intro cf hc
      rw [hf, hcf] at hc
      cases hc
      exact ⟨_, parseFilter_mixedFilter L⟩)
    rw [hs]
    exact ⟨rfl, rfl, rfl⟩

/-- C4, amended, at `(&(objectClass=posixaccount)(objectClass=posixgroup)(foo=bar))`:
the second child conflicts with the first, and the node fails with the
domain-conflict error although its third child does not compile. -/
theorem mixed_domains_fail_witness :
    parseFilter asciiLower ⟨FilterAnd, "", FilterNode.toPackets conflictBeforeUnsupported⟩
      = .error "mixing user and group filters not supported" :=
  (mixed_domains_fail asciiLower FilterAnd (Or.inl rfl) ""
    (FilterNode.toPackets conflictBeforeUnsupported)
    ⟨FilterNode.toPacket (.EqualityMatch "objectClass" "posixaccount"),
      by simp [conflictBeforeUnsupported, FilterNode.toPackets], "", rfl⟩
    ⟨FilterNode.toPacket (.EqualityMatch "objectClass" "posixgroup"),
      by simp [conflictBeforeUnsupported, FilterNode.toPackets], "", rfl⟩).2.1
    [FilterNode.toPacket (.EqualityMatch "objectClass" "posixaccount")]
    [FilterNode.toPacket (.EqualityMatch "foo" "bar")]
    (FilterNode.toPacket (.EqualityMatch "objectClass" "posixaccount"))
    (FilterNode.toPacket (.EqualityMatch "objectClass" "posixgroup"))
    .usersQuery .groupsQuery "" "" rfl (List.mem_singleton.mpr rfl)
    (fun x hx => by
      rw [List.mem_singleton] at hx
      subst hx
      exact ⟨_, rfl⟩)
    rfl rfl (by decide) (by decide) (by decide)


/-! ### C5: the clauses of And and Or -/

/-- When the loop over the children succeeds, every child compiled, and the
clauses collected are the non-empty clauses of the children, in order. -/
theorem parseChildren_ok {L : RuneLower} (cs : List Packet) :
    ∀ (qtype : queryType) (subs : List String) (d : queryType) (out : List String),
      parseChildren L cs qtype subs = .ok (d, out) →
      ∃ rs : List (queryType × String),
        cs.map (parseFilter L) = rs.map Except.ok ∧
        out = subs ++ (rs.map Prod.snd).filter (fun s => decide (s ≠ "")) := by
  induction cs with
  | nil =>
    intro qtype subs d out h
    rw [parseChildren_nil] at h
    cases h
    exact ⟨[], rfl, by simp⟩
  | cons c rest ih =>
    intro qtype subs d out h
    rw [parseChildren_cons] at h
    cases hc : parseFilter L c with
    | error e =>
      rw [hc] at h
      cases h
    | ok r =>
      obtain ⟨qt, sq⟩ := r
      rw [hc] at h
      dsimp only at h
      cases hr : reconcile qtype subs qt sq with
      | error e =>
        rw [hr] at h
        cases h
      | ok r2 =>
        obtain ⟨q1, s1⟩ := r2
        rw [hr] at h
        dsimp only at h
        have hs1 : s1 = if sq ≠ "" then subs ++ [sq] else subs := by
          unfold reconcile at hr
          dsimp only at hr
          split_ifs at hr <;> cases hr <;> simp_all
        obtain ⟨rs, hmap, hout⟩ := ih q1 s1 d out h
        refine ⟨(qt, sq) :: rs, by simp [hc, hmap], ?_⟩
        rw [hout, hs1]
        by_cases hsq : sq = ""
        · simp [hsq]
        · simp [hsq]

/-- C5: when an And (resp. Or) node compiles, every child compiled and the
expression is the non-empty expressions of the children, in child order, joined
by `" and "` (resp. `" or "`); a child with an empty expression adds no text and
no separator. -/
theorem and_or_expression (L : RuneLower) (tag : Nat) (htag : tag = FilterAnd ∨ tag = FilterOr)
    (v : String) (cs : List Packet) (d : queryType) (q : String)
    (h : parseFilter L ⟨tag, v, cs⟩ = .ok (d, q)) :
    ∃ rs : List (queryType × String),
      cs.map (parseFilter L) = rs.map Except.ok ∧
      q = Join ((rs.map Prod.snd).filter (fun s => decide (s ≠ "")))
        (if tag = FilterAnd then " and " else " or ") := by
  have key : ∃ out, parseChildren L cs .unset [] = .ok (d, out) ∧
      q = Join out (if tag = FilterAnd then " and " else " or ") := by
    rcases htag with ht | ht <;> subst ht
    · rw [parseFilter_and] at h
      cases hp : parseChildren L cs .unset [] with
      | error e =>
        rw [hp] at h
        cases h
      | ok r =>
        obtain ⟨d2, out⟩ := r
        rw [hp] at h
        cases h
        exact ⟨out, rfl, rfl⟩
    · rw [parseFilter_or] at h
      cases hp : parseChildren L cs .unset [] with
      | error e =>
        rw [hp] at h
        cases h
      | ok r =>
        obtain ⟨d2, out⟩ := r
        rw [hp] at h
        cases h
        exact ⟨out, rfl, rfl⟩
  obtain ⟨out, hp, hq⟩ := key
  obtain ⟨rs, hmap, hout⟩ := parseChildren_ok cs .unset [] d out hp
  refine ⟨rs, hmap, ?_⟩
  rw [hq, hout, List.nil_append]

/-- C5 at `(&(objectclass=posixaccount)(uid=alice))`: the node compiles to
domain Principals with expression `preferred_name eq 'alice'`, the one non-empty
clause of its children. -/
theorem and_or_expression_witness :
    parseFilter asciiLower (FilterNode.And [.EqualityMatch "objectclass" "posixaccount",
        .EqualityMatch "uid" "alice"]).toPacket
      = .ok (.usersQuery, "preferred_name eq 'alice'") ∧
    ∃ rs : List (queryType × String),
      (FilterNode.toPackets [.EqualityMatch "objectclass" "posixaccount",
        .EqualityMatch "uid" "alice"]).map (parseFilter asciiLower) = rs.map Except.ok ∧
      "preferred_name eq 'alice'"
        = Join ((rs.map Prod.snd).filter (fun s => decide (s ≠ "")))
            (if FilterAnd = FilterAnd then " and " else " or ") :=
  ⟨rfl, and_or_expression asciiLower FilterAnd (Or.inl rfl) ""
    (FilterNode.toPackets [.EqualityMatch "objectclass" "posixaccount",
      .EqualityMatch "uid" "alice"]) .usersQuery "preferred_name eq 'alice'" rfl⟩

/-! ### C6: nested And, Or and Not lose their grouping -/

/-- C6 fails on the code: `(&(|(cn=a)(mail=b))(description=c))` and
`(|(cn=a)(&(mail=b)(description=c)))` compile to the same text although an entry
with cn `a` only satisfies the second and not the first, and likewise
`(!(&(cn=a)(mail=b)))` and `(&(!(cn=a))(mail=b))`.  Hence no reading of the
compiled text, the usual precedence included, gives every filter its meaning. -/
theorem compiled_text_loses_grouping (L : RuneLower) :
    (orUnderAnd.onlyClauses L = true ∧ andUnderOr.onlyClauses L = true ∧
      parseFilter L orUnderAnd.toPacket
        = .ok (.unset, "preferred_name eq 'a' or mail eq 'b' and description eq 'c'") ∧
      parseFilter L andUnderOr.toPacket
        = .ok (.unset, "preferred_name eq 'a' or mail eq 'b' and description eq 'c'") ∧
      orUnderAnd.eval onlyCn = false ∧ andUnderOr.eval onlyCn = true) ∧
    (notOverAnd.onlyClauses L = true ∧ andOfNot.onlyClauses L = true ∧
      parseFilter L notOverAnd.toPacket
        = .ok (.unset, "not preferred_name eq 'a' and mail eq 'b'") ∧
      parseFilter L andOfNot.toPacket
        = .ok (.unset, "not preferred_name eq 'a' and mail eq 'b'") ∧
      notOverAnd.eval noMatch = true ∧ andOfNot.eval noMatch = false) ∧
    ¬ ∃ meaning : String → (String → String → Bool) → Bool,
      ∀ (f : FilterNode) (d : queryType) (q : String) (holds : String → String → Bool),
        f.onlyClauses L = true → parseFilter L f.toPacket = .ok (d, q) →
        meaning q holds = f.eval holds := by
  have hcn : ToLower L "cn" = "cn" := by
    rw [ToLower_of_isASCII L "cn" (by decide)]
    decide
  have hmail : ToLower L "mail" = "mail" := by
    rw [ToLower_of_isASCII L "mail" (by decide)]
    decide
  have hdesc : ToLower L "description" = "description" := by
    rw [ToLower_of_isASCII L "description" (by decide)]
    decide
  have c1 : orUnderAnd.onlyClauses L = true := by
    simp only [orUnderAnd, FilterNode.onlyClauses, FilterNode.allOnlyClauses, hcn, hmail, hdesc]
    decide
  have c2 : andUnderOr.onlyClauses L = true := by
    simp only [andUnderOr, FilterNode.onlyClauses, FilterNode.allOnlyClauses, hcn, hmail, hdesc]
    decide
  have c3 : notOverAnd.onlyClauses L = true := by
    simp only [notOverAnd, FilterNode.onlyClauses, FilterNode.allOnlyClauses, hcn, hmail]
    decide
  have c4 : andOfNot.onlyClauses L = true := by
    simp only [andOfNot, FilterNode.onlyClauses, FilterNode.allOnlyClauses, hcn, hmail]
    decide
  have p1 : parseFilter L orUnderAnd.toPacket
      = .ok (.unset, "preferred_name eq 'a' or mail eq 'b' and description eq 'c'") := by
    rw [parseFilter_of_ascii L _ (by rfl)]
    rfl
  have p2 : parseFilter L andUnderOr.toPacket
      = .ok (.unset, "preferred_name eq 'a' or mail eq 'b' and description eq 'c'") := by
    rw [parseFilter_of_ascii L _ (by rfl)]
    rfl
  have p3 : parseFilter L notOverAnd.toPacket
      = .ok (.unset, "not preferred_name eq 'a' and mail eq 'b'") := by
    rw [parseFilter_of_ascii L _ (by rfl)]
    rfl
  have p4 : parseFilter L andOfNot.toPacket
      = .ok (.unset, "not preferred_name eq 'a' and mail eq 'b'") := by
    rw [parseFilter_of_ascii L _ (by rfl)]
    rfl
  refine ⟨⟨c1, c2, p1, p2, rfl, rfl⟩, ⟨c3, c4, p3, p4, rfl, rfl⟩, ?_⟩
  rintro ⟨meaning, hm⟩
  have h1 := hm orUnderAnd .unset
    "preferred_name eq 'a' or mail eq 'b' and description eq 'c'" onlyCn c1 p1
  have h2 := hm andUnderOr .unset
    "preferred_name eq 'a' or mail eq 'b' and description eq 'c'" onlyCn c2 p2
  rw [h1] at h2
  exact absurd h2 (by decide)

/-! ### C8, C9: the guard and the dispatch of `Search` -/

/-- C8 fails on the code: with the configured base `DC=example,DC=com`, the bind
name `cn=admin,dc=example,dc=com` and the search base `dc=example,dc=com` all
three checks hold when names are compared in lower case, yet `Search` answers
InsufficientAccessRights: the search base is compared with the base as
configured, not lower-cased. -/
theorem search_guard_upper_case_base (L : RuneLower) :
    ("cn=admin,dc=example,dc=com" ≠ "" ∧
      HasSuffix (ToLower L "cn=admin,dc=example,dc=com")
        ("," ++ ToLower L upperCaseConfig.Backend.BaseDN) = true ∧
      HasSuffix (ToLower L "dc=example,dc=com") (ToLower L upperCaseConfig.Backend.BaseDN)
        = true) ∧
    ∀ (CF : String → Except String Packet) (as : String → Except String (List Account))
      (filter : String) (w : World),
      (Search L CF ⟨as, upperCaseConfig⟩ "cn=admin,dc=example,dc=com"
        ⟨"dc=example,dc=com", filter⟩ w).1.1.ResultCode
        = .LDAPResultInsufficientAccessRights := by
  have h1 := ToLower_of_isASCII L "cn=admin,dc=example,dc=com" (by decide)
  have h2 := ToLower_of_isASCII L upperCaseConfig.Backend.BaseDN (by decide)
  have h3 := ToLower_of_isASCII L "dc=example,dc=com" (by decide)
  refine ⟨⟨by decide, by rw [h1, h2]; rfl, by rw [h3, h2]; rfl⟩, ?_⟩
  intro CF as filter w
  refine (Search_rejected CF ⟨as, upperCaseConfig⟩ "cn=admin,dc=example,dc=com"
    ⟨"dc=example,dc=com", filter⟩ w ?_).1
  rw [searchGuard_of_ascii L ⟨as, upperCaseConfig⟩ "cn=admin,dc=example,dc=com"
    ⟨"dc=example,dc=com", filter⟩ (by decide) (by rfl) (by rfl)]
  rfl

/-- C9: for a search that passes the authorization checks of `Search`: when the
filter compiles to domain Principals with expression `q` and the accounts
service answers `q` with a list of accounts, `Search` makes exactly that one
call and returns Success, no error, one projected entry per account in the
order of the answer, and empty referral and control lists; when the filter is
`(&)` or compiles to another domain, `Search` returns Success with no entries
and makes no call. -/
theorem search_dispatch (L : RuneLower) (CF : String → Except String Packet) (h : ocisHandler)
    (bindDN : String) (req : SearchRequest) (w : World)
    (hg : searchGuard L h bindDN req = true) :
    (∀ (cf : Packet) (q : String) (accounts : List Account),
      req.Filter ≠ "(&)" → CF req.Filter = .ok cf → parseFilter L cf = .ok (.usersQuery, q) →
      h.as q = .ok accounts →
        (Search L CF h bindDN req w).1.1.ResultCode = .LDAPResultSuccess ∧
        (Search L CF h bindDN req w).1.2 = none ∧
        (Search L CF h bindDN req w).1.1.Entries = accounts.map (mapAccount h) ∧
        (Search L CF h bindDN req w).1.1.Entries.length = accounts.length ∧
        (Search L CF h bindDN req w).1.1.Referrals = [] ∧
        (Search L CF h bindDN req w).1.1.Controls = [] ∧
        (Search L CF h bindDN req w).2.calls = w.calls ++ [q]) ∧
    ((req.Filter = "(&)" ∨
        ∃ cf d q, CF req.Filter = .ok cf ∧ parseFilter L cf = .ok (d, q) ∧ d ≠ .usersQuery) →
        (Search L CF h bindDN req w).1.1.ResultCode = .LDAPResultSuccess ∧
        (Search L CF h bindDN req w).1.2 = none ∧
        (Search L CF h bindDN req w).1.1.Entries = [] ∧
        (Search L CF h bindDN req w).1.1.Referrals = [] ∧
        (Search L CF h bindDN req w).1.1.Controls = [] ∧
        (Search L CF h bindDN req w).2.calls = w.calls) := by
  constructor
  · intro cf q accounts hne hcf hp has
    rw [Search_compiled CF h bindDN req w .usersQuery q hg (Or.inr ⟨hne, cf, hcf, hp⟩)]
    rw [if_pos rfl, has]
    exact ⟨rfl, rfl, rfl, by simp [mapAccounts], rfl, rfl, rfl⟩
  · intro hq
    by_cases hf : req.Filter = "(&)"
    · rw [Search_compiled CF h bindDN req w .unset "" hg (Or.inl ⟨hf, rfl, rfl⟩)]
      exact ⟨rfl, rfl, rfl, rfl, rfl, rfl⟩
    · rcases hq with hq | ⟨cf, d, q, hcf, hp, hd⟩
      · exact absurd hq hf
      · rw [Search_compiled CF h bindDN req w d q hg (Or.inr ⟨hf, cf, hcf, hp⟩)]
        rw [if_neg hd]
        exact ⟨rfl, rfl, rfl, rfl, rfl, rfl⟩

/-- C9 at the search of `cn=admin,dc=example,dc=com` under `dc=example,dc=com`
with the filter `(&(objectclass=posixaccount)(uid=alice))`: one call with the
query `preferred_name eq 'alice'`, one entry, Success. -/
theorem search_dispatch_witness :
    searchGuard asciiLower exampleHandler "cn=admin,dc=example,dc=com"
      ⟨"dc=example,dc=com", "(&(objectclass=posixaccount)(uid=alice))"⟩ = true ∧
    (Search asciiLower exampleCompileFilter exampleHandler "cn=admin,dc=example,dc=com"
      ⟨"dc=example,dc=com", "(&(objectclass=posixaccount)(uid=alice))"⟩
      emptyWorld).1.1.ResultCode = .LDAPResultSuccess ∧
    (Search asciiLower exampleCompileFilter exampleHandler "cn=admin,dc=example,dc=com"
      ⟨"dc=example,dc=com", "(&(objectclass=posixaccount)(uid=alice))"⟩
      emptyWorld).2.calls = [] ++ ["preferred_name eq 'alice'"] :=
  have hw := (search_dispatch asciiLower exampleCompileFilter exampleHandler "cn=admin,dc=example,dc=com"
    ⟨"dc=example,dc=com", "(&(objectclass=posixaccount)(uid=alice))"⟩ emptyWorld (by rfl)).1
    _ "preferred_name eq 'alice'" [aliceAccount] (by decide) rfl rfl rfl
  ⟨by rfl, hw.1, hw.2.2.2.2.2.2⟩

/-! ### C10: the query of `Bind` -/

theorem Bind_calls {L : RuneLower} (h : ocisHandler) (bindDN bindSimplePw : String) (w : World)
    (hs : HasSuffix (ToLower L bindDN) (ToLower L ("," ++ h.cfg.Backend.BaseDN)) = true)
    (hparts : (SplitComma (TrimSuffix (ToLower L bindDN)
      (ToLower L ("," ++ h.cfg.Backend.BaseDN)))).length ≤ 2) :
    (Bind L h bindDN bindSimplePw w).2.calls = w.calls ++
      [bindQuery (TrimPrefix ((SplitComma (TrimSuffix (ToLower L bindDN)
        (ToLower L ("," ++ h.cfg.Backend.BaseDN)))).headD "") "cn=") bindSimplePw] := by
  unfold Bind
  simp only [hs, Bool.not_true, Bool.false_eq_true, if_false, gt_iff_lt,
    Nat.not_lt.mpr hparts, ListAccounts]
  cases h.as _ <;> rfl

/-- C10 fails on the code: binding as `cn=alice,dc=example,dc=com` with the
password `x' or login eq 'alice` sends the query
`login eq 'alice' and password eq 'x' or login eq 'alice'`, the password put
between the quotes as it is; with the quotes doubled the query would be
`login eq 'alice' and password eq 'x'' or login eq ''alice'`. -/
theorem bind_query_not_escaped (L : RuneLower) :
    (∀ (as : String → Except String (List Account)) (w : World),
      (Bind L ⟨as, exampleConfig⟩ "cn=alice,dc=example,dc=com" "x' or login eq 'alice"
        w).2.calls
        = w.calls ++ ["login eq 'alice' and password eq 'x' or login eq 'alice'"]) ∧
    "login eq '" ++ escapeValue "alice" ++ "' and password eq '" ++
        escapeValue "x' or login eq 'alice" ++ "'"
      = "login eq 'alice' and password eq 'x'' or login eq ''alice'" ∧
    "login eq 'alice' and password eq 'x' or login eq 'alice'"
      ≠ "login eq 'alice' and password eq 'x'' or login eq ''alice'" := by
  refine ⟨?_, by decide, by decide⟩
  intro as w
  rw [Bind_of_ascii L ⟨as, exampleConfig⟩ "cn=alice,dc=example,dc=com" "x' or login eq 'alice" w
    (by decide) (by rfl)]
  have hs : HasSuffix (ToLower asciiLower "cn=alice,dc=example,dc=com")
      (ToLower asciiLower ("," ++ exampleConfig.Backend.BaseDN)) = true := by rfl
  have hp : (SplitComma (TrimSuffix (ToLower asciiLower "cn=alice,dc=example,dc=com")
      (ToLower asciiLower ("," ++ exampleConfig.Backend.BaseDN)))).length ≤ 2 := by decide
  exact Bind_calls ⟨as, exampleConfig⟩ "cn=alice,dc=example,dc=com" "x' or login eq 'alice" w
    hs hp

/-! ### C11, C12, C13: `Bind` -/

theorem Bind_rejected {L : RuneLower} (h : ocisHandler) (bindDN bindSimplePw : String)
    (w : World) (hg : bindGuard L h bindDN = false) :
    Bind L h bindDN bindSimplePw w = ((.LDAPResultInvalidCredentials, none), w.addBindReq) := by
  unfold bindGuard at hg
  unfold Bind
  by_cases hs : HasSuffix (ToLower L bindDN) (ToLower L ("," ++ h.cfg.Backend.BaseDN)) = true
  · simp only [hs, Bool.true_and, decide_eq_false_iff_not, Nat.not_le] at hg
    simp only [hs, Bool.not_true, Bool.false_eq_true, if_false, gt_iff_lt, hg, if_true]
  · simp only [hs, Bool.not_false, if_true, Bool.not_eq_true]

theorem Bind_checked {L : RuneLower} (h : ocisHandler) (bindDN bindSimplePw : String)
    (w : World) (hg : bindGuard L h bindDN = true) :
    Bind L h bindDN bindSimplePw w =
      match h.as (bindQuery (bindUserName L h bindDN) bindSimplePw) with
      | .error _ =>
        ((.LDAPResultInvalidCredentials, none),
          { w.addBindReq with
            calls := w.calls ++ [bindQuery (bindUserName L h bindDN) bindSimplePw] })
      | .ok _ =>
        ((.LDAPResultSuccess, none),
          World.addBindSuccess { w.addBindReq with
            calls := w.calls ++ [bindQuery (bindUserName L h bindDN) bindSimplePw] }) := by
  unfold bindGuard at hg
  simp only [Bool.and_eq_true, decide_eq_true_eq] at hg
  obtain ⟨hs, hparts⟩ := hg
  unfold Bind bindUserName
  simp only [hs, Bool.not_true, Bool.false_eq_true, if_false, gt_iff_lt,
    Nat.not_lt.mpr hparts, ListAccounts]
  cases h.as _ <;> rfl

/-- The number of parts `strings.Split` returns is the number of separators plus
one. -/
theorem splitOnChar_length (sep : Char) (cs : List Char) :
    ∀ cur : List Char, (splitOnChar sep cur cs).length = cs.count sep + 1 := by
  induction cs with
  | nil =>
    intro cur
    simp [splitOnChar]
  | cons c rest ih =>
    intro cur
    unfold splitOnChar
    by_cases hc : c = sep
    · subst hc
      simp [ih]
    · have hne : ¬ (c == sep) = true := by simpa using hc
      simp [hc, ih, List.count_cons, hne]

/-- The first part `strings.Split` returns is the text before the first
separator. -/
theorem splitOnChar_head (sep : Char) (cs : List Char) :
    ∀ cur : List Char, (splitOnChar sep cur cs).headD ""
      = ⟨cur.reverse ++ cs.takeWhile (fun c => decide (c ≠ sep))⟩ := by
  induction cs with
  | nil =>
    intro cur
    simp [splitOnChar]
  | cons c rest ih =>
    intro cur
    unfold splitOnChar
    by_cases hc : c = sep
    · subst hc
      simp
    · rw [if_neg hc, ih (c :: cur)]
      apply String.ext
      simp [List.takeWhile_cons, hc]

theorem HasSuffix_append (p s : String) : HasSuffix (p ++ s) s = true := by
  rw [HasSuffix_iff]
  exact ⟨p.data, rfl⟩

theorem TrimSuffix_append (p s : String) : TrimSuffix (p ++ s) s = p := by
  unfold TrimSuffix
  rw [if_pos (HasSuffix_append p s)]
  apply String.ext
  simp

/-- What `Bind` returns after its two checks: an error of the accounts service
gives InvalidCredentials and no bind success is counted; an answer without
error gives Success and one bind success, whatever list of accounts it
carries. -/
theorem Bind_answer (L : RuneLower) (h : ocisHandler) (bindDN bindSimplePw : String)
    (w : World) (hg : bindGuard L h bindDN = true) :
    (∀ e, h.as (bindQuery (bindUserName L h bindDN) bindSimplePw) = .error e →
      (Bind L h bindDN bindSimplePw w).1 = (.LDAPResultInvalidCredentials, none) ∧
      (Bind L h bindDN bindSimplePw w).2.stats.bind_successes = w.stats.bind_successes) ∧
    (∀ accounts, h.as (bindQuery (bindUserName L h bindDN) bindSimplePw) = .ok accounts →
      (Bind L h bindDN bindSimplePw w).1 = (.LDAPResultSuccess, none) ∧
      (Bind L h bindDN bindSimplePw w).2.stats.bind_successes = w.stats.bind_successes + 1) := by
  rw [Bind_checked h bindDN bindSimplePw w hg]
  cases hq : h.as (bindQuery (bindUserName L h bindDN) bindSimplePw) with
  | error e => exact ⟨fun _ _ => ⟨rfl, rfl⟩, (fun accounts hc => by cases hc)⟩
  | ok accounts => exact ⟨(fun e hc => by cases hc), fun _ _ => ⟨rfl, rfl⟩⟩

/-- C11 fails on the code: with the base `dc=example,dc=com`, the bind name
`cn=alice,dc=example,dc=com` passes both checks, the accounts service answers
the credential query with the empty list and no error, and `Bind` returns
Success and counts a bind success; the same holds for every bind request that
passes the checks and is answered with the empty list. -/
theorem bind_accepts_empty_answer (L : RuneLower) :
    (bindGuard L emptyAnswerHandler "cn=alice,dc=example,dc=com" = true ∧
      emptyAnswerHandler.as "login eq 'alice' and password eq 'secret'" = .ok [] ∧
      (Bind L emptyAnswerHandler "cn=alice,dc=example,dc=com" "secret" emptyWorld).2.calls
        = ["login eq 'alice' and password eq 'secret'"] ∧
      (Bind L emptyAnswerHandler "cn=alice,dc=example,dc=com" "secret" emptyWorld).1
        = (.LDAPResultSuccess, none) ∧
      (Bind L emptyAnswerHandler "cn=alice,dc=example,dc=com" "secret"
        emptyWorld).2.stats.bind_successes = 1) ∧
    ∀ (h : ocisHandler) (bindDN bindSimplePw : String) (w : World),
      bindGuard L h bindDN = true →
      h.as (bindQuery (bindUserName L h bindDN) bindSimplePw) = .ok [] →
      (Bind L h bindDN bindSimplePw w).1 = (.LDAPResultSuccess, none) ∧
      (Bind L h bindDN bindSimplePw w).2.stats.bind_successes
        = w.stats.bind_successes + 1 := by
  constructor
  · rw [bindGuard_of_ascii L emptyAnswerHandler "cn=alice,dc=example,dc=com" (by decide)
        (by decide),
      Bind_of_ascii L emptyAnswerHandler "cn=alice,dc=example,dc=com" "secret" emptyWorld
        (by decide) (by decide)]
    exact ⟨by rfl, rfl, rfl, rfl, rfl⟩
  · intro h bindDN bindSimplePw w hg has
    exact (Bind_answer L h bindDN bindSimplePw w hg).2 [] has

/-- C12: a bind name whose lower-cased form does not end in `","` followed by
the lower-cased configured base, and a bind name that does but whose part before
that suffix has more than two comma-separated components (components being one
more than commas), are rejected with InvalidCredentials, no error value, and no
call to the accounts service. -/
theorem bind_rejects (L : RuneLower) (h : ocisHandler) (bindDN bindSimplePw : String)
    (w : World)
    (hbad : HasSuffix (ToLower L bindDN) ("," ++ ToLower L h.cfg.Backend.BaseDN) = false ∨
      ∃ pfx : String, ToLower L bindDN = pfx ++ ("," ++ ToLower L h.cfg.Backend.BaseDN) ∧
        pfx.data.count ',' + 1 > 2) :
    (Bind L h bindDN bindSimplePw w).1.1 = .LDAPResultInvalidCredentials ∧
    (Bind L h bindDN bindSimplePw w).1.2 = none ∧
    (Bind L h bindDN bindSimplePw w).2.calls = w.calls := by
  have hg : bindGuard L h bindDN = false := by
    unfold bindGuard
    rw [ToLower_comma]
    rcases hbad with hb | ⟨pfx, hb, hc⟩
    · rw [hb]
      rfl
    · rw [Bool.and_eq_false_iff]
      right
      rw [hb, TrimSuffix_append]
      unfold SplitComma
      rw [splitOnChar_length]
      exact decide_eq_false (by omega)
  rw [Bind_rejected h bindDN bindSimplePw w hg]
  exact ⟨rfl, rfl, rfl⟩

/-- C12 at the bind name `cn=a,ou=b,ou=c,dc=example,dc=com`, three components
before the base, and at `cn=a,dc=other,dc=com`, outside the base. -/
theorem bind_rejects_witness :
    ((∃ pfx : String, ToLower asciiLower "cn=a,ou=b,ou=c,dc=example,dc=com"
          = pfx ++ ("," ++ ToLower asciiLower exampleHandler.cfg.Backend.BaseDN) ∧
        pfx.data.count ',' + 1 > 2) ∧
      (Bind asciiLower exampleHandler "cn=a,ou=b,ou=c,dc=example,dc=com" "secret"
        emptyWorld).1.1 = .LDAPResultInvalidCredentials ∧
      (Bind asciiLower exampleHandler "cn=a,ou=b,ou=c,dc=example,dc=com" "secret"
        emptyWorld).1.2 = none ∧
      (Bind asciiLower exampleHandler "cn=a,ou=b,ou=c,dc=example,dc=com" "secret"
        emptyWorld).2.calls = emptyWorld.calls) ∧
    (Bind asciiLower exampleHandler "cn=a,dc=other,dc=com" "secret" emptyWorld).1.1
      = .LDAPResultInvalidCredentials :=
  ⟨⟨⟨"cn=a,ou=b,ou=c", by decide, by decide⟩,
      bind_rejects asciiLower exampleHandler "cn=a,ou=b,ou=c,dc=example,dc=com" "secret"
        emptyWorld (Or.inr ⟨"cn=a,ou=b,ou=c", by decide, by decide⟩)⟩,
    (bind_rejects asciiLower exampleHandler "cn=a,dc=other,dc=com" "secret" emptyWorld
      (Or.inl (by rfl))).1⟩

/-- C13: when the lower-cased bind name is `pfx`, then `","`, then the
lower-cased configured base, and `pfx` has at most two comma-separated
components, `Bind` makes exactly one call to the accounts service; its query is
`login eq '<n>' and password eq '<p>'`, where `<p>` is the password and `<n>` is
the first component of `pfx`, the text before its first comma, without a leading
`cn=`; when the call returns a record without error, `Bind` returns Success. -/
theorem bind_issues_one_query (L : RuneLower) (h : ocisHandler)
    (bindDN bindSimplePw : String) (w : World) (pfx : String)
    (hb : ToLower L bindDN = pfx ++ ("," ++ ToLower L h.cfg.Backend.BaseDN))
    (hc : pfx.data.count ',' + 1 ≤ 2) :
    ∃ n : String,
      (pfx.data.takeWhile (fun c => decide (c ≠ ',')) = "cn=".data ++ n.data ∨
        (¬ "cn=".data <+: pfx.data.takeWhile (fun c => decide (c ≠ ',')) ∧
          n.data = pfx.data.takeWhile (fun c => decide (c ≠ ',')))) ∧
      (Bind L h bindDN bindSimplePw w).2.calls = w.calls ++
        ["login eq '" ++ n ++ "' and password eq '" ++ bindSimplePw ++ "'"] ∧
      ∀ acc accounts,
        h.as ("login eq '" ++ n ++ "' and password eq '" ++ bindSimplePw ++ "'")
          = .ok (acc :: accounts) →
        (Bind L h bindDN bindSimplePw w).1 = (.LDAPResultSuccess, none) := by
  have htrim : TrimSuffix (ToLower L bindDN) (ToLower L ("," ++ h.cfg.Backend.BaseDN))
      = pfx := by
    rw [ToLower_comma, hb, TrimSuffix_append]
  have hg : bindGuard L h bindDN = true := by
    unfold bindGuard
    rw [htrim]
    rw [ToLower_comma, hb, HasSuffix_append]
    unfold SplitComma
    rw [splitOnChar_length]
    exact decide_eq_true hc
  have hfirst : (SplitComma pfx).headD ""
      = ⟨pfx.data.takeWhile (fun c => decide (c ≠ ','))⟩ := by
    unfold SplitComma
    rw [splitOnChar_head]
    rfl
  have hu : bindUserName L h bindDN
      = TrimPrefix ⟨pfx.data.takeWhile (fun c => decide (c ≠ ','))⟩ "cn=" := by
    unfold bindUserName
    rw [htrim, hfirst]
  have hq : bindQuery (bindUserName L h bindDN) bindSimplePw
      = "login eq '" ++ bindUserName L h bindDN ++ "' and password eq '" ++ bindSimplePw
        ++ "'" := rfl
  refine ⟨bindUserName L h bindDN, ?_, ?_, ?_⟩
  · rw [hu]
    unfold TrimPrefix
    by_cases hp : HasPrefix ⟨pfx.data.takeWhile (fun c => decide (c ≠ ','))⟩ "cn=" = true
    · left
      rw [if_pos hp]
      have hp2 : "cn=".data <+: pfx.data.takeWhile (fun c => decide (c ≠ ',')) := by
        simpa [HasPrefix] using hp
      obtain ⟨t, ht⟩ := hp2
      rw [← ht]
      simp
    · right
      rw [if_neg hp]
      refine ⟨?_, rfl⟩
      intro hpre
      apply hp
      simpa [HasPrefix] using hpre
  · rw [Bind_checked h bindDN bindSimplePw w hg, hq]
    cases h.as _ <;> rfl
  · intro acc accounts hok
    rw [Bind_checked h bindDN bindSimplePw w hg, hq, hok]

/-- C13 at the bind name `cn=alice,ou=users,dc=example,dc=com`, two components
before the base `dc=example,dc=com`, and at `cn=alice,dc=example,dc=com`: the
one call asks for the login `alice`, and with a record in the answer `Bind`
returns Success. -/
theorem bind_issues_one_query_witness :
    ((Bind asciiLower exampleHandler "cn=alice,dc=example,dc=com" "secret" emptyWorld).2.calls
        = ["login eq 'alice' and password eq 'secret'"] ∧
      (Bind asciiLower exampleHandler "cn=alice,dc=example,dc=com" "secret" emptyWorld).1
        = (.LDAPResultSuccess, none) ∧
      (Bind asciiLower exampleHandler "cn=alice,ou=users,dc=example,dc=com" "secret"
        emptyWorld).2.calls = ["login eq 'alice' and password eq 'secret'"] ∧
      (Bind asciiLower exampleHandler "cn=alice,ou=users,dc=example,dc=com" "secret"
        emptyWorld).1 = (.LDAPResultSuccess, none)) ∧
    ∃ n : String,
      ("cn=alice,ou=users".data.takeWhile (fun c => decide (c ≠ ',')) = "cn=".data ++ n.data ∨
        (¬ "cn=".data <+: "cn=alice,ou=users".data.takeWhile (fun c => decide (c ≠ ',')) ∧
          n.data = "cn=alice,ou=users".data.takeWhile (fun c => decide (c ≠ ',')))) ∧
      (Bind asciiLower exampleHandler "cn=alice,ou=users,dc=example,dc=com" "secret"
        emptyWorld).2.calls = emptyWorld.calls ++
          ["login eq '" ++ n ++ "' and password eq '" ++ "secret" ++ "'"] ∧
      ∀ acc accounts,
        exampleHandler.as ("login eq '" ++ n ++ "' and password eq '" ++ "secret" ++ "'")
          = .ok (acc :: accounts) →
        (Bind asciiLower exampleHandler "cn=alice,ou=users,dc=example,dc=com" "secret"
          emptyWorld).1 = (.LDAPResultSuccess, none) :=
  ⟨⟨rfl, rfl, rfl, rfl⟩,
    bind_issues_one_query asciiLower exampleHandler "cn=alice,ou=users,dc=example,dc=com"
      "secret" emptyWorld "cn=alice,ou=users" (by decide) (by decide)⟩


/-! ### C14: the error of a search whose filter does not compile -/

/-- C14 as stated fails: the authorized search with the filter `(foo=bar)` fails
to compile with the error "filter by foo not implmented", and `Search` returns
the message "Search Error: error parsing filter: (foo=bar)", which does not
contain the compiler's text. -/
theorem search_error_text_counterexample :
    (∀ L : RuneLower,
      parseFilter L (FilterNode.EqualityMatch "foo" "bar").toPacket
        = .error "filter by foo not implmented" ∧
      (Search L fooCompileFilter exampleHandler "cn=admin,dc=example,dc=com"
        ⟨"dc=example,dc=com", "(foo=bar)"⟩ emptyWorld).1.2
        = some "Search Error: error parsing filter: (foo=bar)") ∧
    Contains "Search Error: error parsing filter: (foo=bar)"
      "filter by foo not implmented" = false ∧
    ¬ ∃ L : RuneLower,
      ∀ (CF : String → Except String Packet) (h : ocisHandler) (bindDN : String)
        (req : SearchRequest) (w : World) (cf : Packet) (e : String),
        searchGuard L h bindDN req = true → req.Filter ≠ "(&)" → CF req.Filter = .ok cf →
        parseFilter L cf = .error e →
        ∃ msg, (Search L CF h bindDN req w).1.2 = some msg ∧ Contains msg e = true := by
  have hp : ∀ L : RuneLower, parseFilter L (FilterNode.EqualityMatch "foo" "bar").toPacket
      = .error "filter by foo not implmented" := by
    intro L
    rw [parseFilter_of_ascii L _ (by rfl)]
    rfl
  have hS : ∀ L : RuneLower,
      Search L fooCompileFilter exampleHandler "cn=admin,dc=example,dc=com"
        ⟨"dc=example,dc=com", "(foo=bar)"⟩ emptyWorld
      = Search asciiLower fooCompileFilter exampleHandler "cn=admin,dc=example,dc=com"
        ⟨"dc=example,dc=com", "(foo=bar)"⟩ emptyWorld := by
    intro L
    refine Search_of_ascii L fooCompileFilter exampleHandler "cn=admin,dc=example,dc=com"
      ⟨"dc=example,dc=com", "(foo=bar)"⟩ emptyWorld (by decide) (by decide) (by decide) ?_
    intro cf hc
    cases hc
    rfl
  have hmsgL : ∀ L : RuneLower,
      (Search L fooCompileFilter exampleHandler "cn=admin,dc=example,dc=com"
        ⟨"dc=example,dc=com", "(foo=bar)"⟩ emptyWorld).1.2
        = some "Search Error: error parsing filter: (foo=bar)" := by
    intro L
    rw [hS L]
    rfl
  have h3 : Contains "Search Error: error parsing filter: (foo=bar)"
      "filter by foo not implmented" = false := by rfl
  refine ⟨fun L => ⟨hp L, hmsgL L⟩, h3, ?_⟩
  rintro ⟨L, hall⟩
  have hg : searchGuard L exampleHandler "cn=admin,dc=example,dc=com"
      ⟨"dc=example,dc=com", "(foo=bar)"⟩ = true := by
    rw [searchGuard_of_ascii L exampleHandler "cn=admin,dc=example,dc=com"
      ⟨"dc=example,dc=com", "(foo=bar)"⟩ (by decide) (by decide) (by decide)]
    rfl
  obtain ⟨msg, hmsg, hc⟩ := hall fooCompileFilter exampleHandler "cn=admin,dc=example,dc=com"
    ⟨"dc=example,dc=com", "(foo=bar)"⟩ emptyWorld
    (FilterNode.EqualityMatch "foo" "bar").toPacket "filter by foo not implmented"
    hg (by decide) rfl (hp L)
  rw [hmsgL L] at hmsg
  cases hmsg
  rw [h3] at hc
  cases hc

/-- C14, amended: for an authorized search whose filter parses but fails to
compile, with whatever error, `Search` returns OperationsError, no entries, and
the error message "Search Error: error parsing filter: " followed by the filter
string of the request; no call is made to the accounts service. -/
theorem search_compile_error (L : RuneLower) (CF : String → Except String Packet) (h : ocisHandler)
    (bindDN : String) (req : SearchRequest) (w : World) (cf : Packet) (e : String)
    (hg : searchGuard L h bindDN req = true) (hne : req.Filter ≠ "(&)")
    (hcf : CF req.Filter = .ok cf) (hp : parseFilter L cf = .error e) :
    (Search L CF h bindDN req w).1.1.ResultCode = .LDAPResultOperationsError ∧
    (Search L CF h bindDN req w).1.1.Entries = [] ∧
    (Search L CF h bindDN req w).1.2
      = some ("Search Error: error parsing filter: " ++ req.Filter) ∧
    (Search L CF h bindDN req w).2.calls = w.calls := by
  have hs := Search_parse_error CF h bindDN req w hg hne (by
    intro cf2 hc
    rw [hcf] at hc
    cases hc
    exact ⟨e, hp⟩)
  rw [hs]
  exact ⟨rfl, rfl, rfl, rfl⟩

/-- C14, amended, at the search with the filter `(foo=bar)`. -/
theorem search_compile_error_witness :
    (Search asciiLower fooCompileFilter exampleHandler "cn=admin,dc=example,dc=com"
      ⟨"dc=example,dc=com", "(foo=bar)"⟩ emptyWorld).1.1.ResultCode
      = .LDAPResultOperationsError ∧
    (Search asciiLower fooCompileFilter exampleHandler "cn=admin,dc=example,dc=com"
      ⟨"dc=example,dc=com", "(foo=bar)"⟩ emptyWorld).1.2
      = some ("Search Error: error parsing filter: " ++ "(foo=bar)") :=
  have hw := search_compile_error asciiLower fooCompileFilter exampleHandler "cn=admin,dc=example,dc=com"
    ⟨"dc=example,dc=com", "(foo=bar)"⟩ emptyWorld
    (FilterNode.EqualityMatch "foo" "bar").toPacket "filter by foo not implmented"
    (by rfl) (by decide) rfl rfl
  ⟨hw.1, hw.2.2.1⟩

/-! ### C15, C16: the projection of accounts -/

/-- C15 as stated fails on the names of the numeric attributes: for the account
of alice the projected attributes are named objectClass, cn, uid, sn,
displayName, mail, `uidnumber`, `gidnumber`, not `uidNumber`, `gidNumber`. -/
theorem mapAccount_attribute_names_counterexample :
    ((mapAccount exampleHandler aliceAccount).Attributes.map EntryAttribute.Name
        = ["objectClass", "cn", "uid", "sn", "displayName", "mail", "uidnumber", "gidnumber"] ∧
      (specAttributes aliceAccount).map EntryAttribute.Name
        = ["objectClass", "cn", "uid", "sn", "displayName", "mail", "uidNumber", "gidNumber"]) ∧
    ¬ (∀ (h : ocisHandler) (acc : Account),
        (mapAccount h acc).Attributes = specAttributes acc) := by
  refine ⟨⟨rfl, rfl⟩, ?_⟩
  intro hall
  have h := congrArg (List.map EntryAttribute.Name) (hall exampleHandler aliceAccount)
  have h1 : (mapAccount exampleHandler aliceAccount).Attributes.map EntryAttribute.Name
      = ["objectClass", "cn", "uid", "sn", "displayName", "mail", "uidnumber", "gidnumber"] :=
    rfl
  have h2 : (specAttributes aliceAccount).map EntryAttribute.Name
      = ["objectClass", "cn", "uid", "sn", "displayName", "mail", "uidNumber", "gidNumber"] :=
    rfl
  rw [h1, h2] at h
  exact absurd h (by decide)


theorem ite_append_singleton {α : Type} (c : Prop) [Decidable c] (l : List α) (x : α) :
    (if c then l ++ [x] else l) = l ++ (if c then [x] else []) := by
  split_ifs <;> simp

/-- C15, amended: the attributes of a projected entry are, in this order,
objectClass with its five fixed values, cn, uid and sn with the preferred name,
then displayName if DisplayName is not empty, mail if Mail is not empty,
`uidnumber` if UidNumber is not zero, `gidnumber` if GidNumber is not zero, both
in decimal with their sign, and description if Description is not empty;
nothing else.  With all optional fields empty or zero the attributes are
exactly objectClass, cn, uid, sn.  The names of the two numeric attributes are
in lower case; they are the names `uidNumber` and `gidNumber` without regard to
case. -/
theorem mapAccount_attributes (L : RuneLower) (h : ocisHandler) (acc : Account) :
    (mapAccount h acc).Attributes =
      [⟨"objectClass",
          ["posixAccount", "inetOrgPerson", "organizationalPerson", "Person", "top"]⟩,
        ⟨"cn", [acc.PreferredName]⟩, ⟨"uid", [acc.PreferredName]⟩,
        ⟨"sn", [acc.PreferredName]⟩]
      ++ (if acc.DisplayName ≠ "" then [⟨"displayName", [acc.DisplayName]⟩] else [])
      ++ (if acc.Mail ≠ "" then [⟨"mail", [acc.Mail]⟩] else [])
      ++ (if acc.UidNumber ≠ 0 then [⟨"uidnumber", [FormatInt acc.UidNumber]⟩] else [])
      ++ (if acc.GidNumber ≠ 0 then [⟨"gidnumber", [FormatInt acc.GidNumber]⟩] else [])
      ++ (if acc.Description ≠ "" then [⟨"description", [acc.Description]⟩] else []) ∧
    (acc.DisplayName = "" → acc.Mail = "" → acc.UidNumber = 0 → acc.GidNumber = 0 →
      acc.Description = "" →
      (mapAccount h acc).Attributes =
        [⟨"objectClass",
            ["posixAccount", "inetOrgPerson", "organizationalPerson", "Person", "top"]⟩,
          ⟨"cn", [acc.PreferredName]⟩, ⟨"uid", [acc.PreferredName]⟩,
          ⟨"sn", [acc.PreferredName]⟩]) ∧
    (ToLower L "uidnumber" = ToLower L "uidNumber" ∧ ToLower L "gidnumber" = ToLower L "gidNumber") ∧
    (FormatInt 1000 = "1000" ∧ FormatInt (-5) = "-5") := by
  have key : (mapAccount h acc).Attributes =
      [⟨"objectClass",
          ["posixAccount", "inetOrgPerson", "organizationalPerson", "Person", "top"]⟩,
        ⟨"cn", [acc.PreferredName]⟩, ⟨"uid", [acc.PreferredName]⟩,
        ⟨"sn", [acc.PreferredName]⟩]
      ++ (if acc.DisplayName ≠ "" then [⟨"displayName", [acc.DisplayName]⟩] else [])
      ++ (if acc.Mail ≠ "" then [⟨"mail", [acc.Mail]⟩] else [])
      ++ (if acc.UidNumber ≠ 0 then [⟨"uidnumber", [FormatInt acc.UidNumber]⟩] else [])
      ++ (if acc.GidNumber ≠ 0 then [⟨"gidnumber", [FormatInt acc.GidNumber]⟩] else [])
      ++ (if acc.Description ≠ "" then [⟨"description", [acc.Description]⟩] else []) := by
    unfold mapAccount
    simp only [mkAttribute, ite_append_singleton]
  have hfold : ∀ a b : String, isASCII a = true → isASCII b = true →
      ToLower asciiLower a = ToLower asciiLower b → ToLower L a = ToLower L b := by
    intro a b ha hb hab
    rw [ToLower_of_isASCII L a ha, ToLower_of_isASCII L b hb, hab]
  refine ⟨key, ?_, ⟨hfold _ _ (by decide) (by decide) (by decide),
    hfold _ _ (by decide) (by decide) (by decide)⟩, ⟨by decide, by decide⟩⟩
  intro h1 h2 h3 h4 h5
  rw [key]
  simp [h1, h2, h3, h4, h5]


/-- C15, amended, at an account with only a preferred name: exactly objectClass,
cn, uid and sn. -/
theorem mapAccount_attributes_witness :
    (mapAccount exampleHandler bareAccount).Attributes =
      [⟨"objectClass",
          ["posixAccount", "inetOrgPerson", "organizationalPerson", "Person", "top"]⟩,
        ⟨"cn", ["bob"]⟩, ⟨"uid", ["bob"]⟩, ⟨"sn", ["bob"]⟩] :=
  (mapAccount_attributes asciiLower exampleHandler bareAccount).2.1 rfl rfl rfl rfl rfl

theorem mapAccount_DN (h : ocisHandler) (acc : Account) :
    (mapAccount h acc).DN = h.cfg.Backend.NameFormat ++ "=" ++ acc.PreferredName ++ "," ++
      h.cfg.Backend.GroupFormat ++ "=users," ++ h.cfg.Backend.BaseDN := by
  apply String.ext
  simp [mapAccount, List.append_assoc]

/-- C16: `mapAccounts` is total and returns one entry per account, in the order
of the input, the entry at each position being the projection of the account at
that position; the distinguished name of each entry is
`NameFormat + "=" + preferredName + "," + GroupFormat + "=users," + BaseDN`, and
so ends in `"," + BaseDN`. -/
theorem mapAccounts_entries (h : ocisHandler) (accounts : List Account) :
    (mapAccounts h accounts).length = accounts.length ∧
    (∀ i : Nat, (mapAccounts h accounts)[i]? = (accounts[i]?).map (mapAccount h)) ∧
    (mapAccounts h accounts).map Entry.DN = accounts.map (fun acc =>
      h.cfg.Backend.NameFormat ++ "=" ++ acc.PreferredName ++ "," ++
        h.cfg.Backend.GroupFormat ++ "=users," ++ h.cfg.Backend.BaseDN) ∧
    ∀ e ∈ mapAccounts h accounts, HasSuffix e.DN ("," ++ h.cfg.Backend.BaseDN) = true := by
  refine ⟨by simp [mapAccounts], ?_, ?_, ?_⟩
  · intro i
    simp [mapAccounts]
  · simp only [mapAccounts, List.map_map]
    apply List.map_congr_left
    intro acc _
    exact mapAccount_DN h acc
  · intro e he
    simp only [mapAccounts, List.mem_map] at he
    obtain ⟨acc, _, rfl⟩ := he
    rw [mapAccount_DN, HasSuffix_iff]
    refine ⟨(h.cfg.Backend.NameFormat ++ "=" ++ acc.PreferredName ++ "," ++
      h.cfg.Backend.GroupFormat ++ "=users").data, ?_⟩
    simp [List.append_assoc]

/-! ### C17: the domain of And and Or -/

theorem firstDomain_cons_unset (ds : List queryType) :
    firstDomain (.unset :: ds) = firstDomain ds := by
  simp [firstDomain]

theorem firstDomain_cons_set (d : queryType) (ds : List queryType) (hd : d ≠ .unset) :
    firstDomain (d :: ds) = d := by
  simp [firstDomain, hd]

/-- When the loop over the children succeeds from the domain `qtype`, the
resulting domain is the first domain that is not Unset among `qtype` and the
domains of the children. -/
theorem parseChildren_domain {L : RuneLower} (cs : List Packet) :
    ∀ (qtype : queryType) (subs : List String) (d : queryType) (out : List String),
      parseChildren L cs qtype subs = .ok (d, out) →
      ∃ rs : List (queryType × String),
        cs.map (parseFilter L) = rs.map Except.ok ∧
        d = firstDomain (qtype :: rs.map Prod.fst) := by
  induction cs with
  | nil =>
    intro qtype subs d out h
    rw [parseChildren_nil] at h
    cases h
    refine ⟨[], rfl, ?_⟩
    cases qtype <;> rfl
  | cons c rest ih =>
    intro qtype subs d out h
    rw [parseChildren_cons] at h
    cases hc : parseFilter L c with
    | error e =>
      rw [hc] at h
      cases h
    | ok r =>
      obtain ⟨qt, sq⟩ := r
      rw [hc] at h
      dsimp only at h
      by_cases hq : qtype = .unset
      · subst hq
        rw [reconcile_unset] at h
        dsimp only at h
        obtain ⟨rs, hmap, hd⟩ := ih qt _ d out h
        refine ⟨(qt, sq) :: rs, by simp [hc, hmap], ?_⟩
        rw [hd, List.map_cons, firstDomain_cons_unset]
      · rw [reconcile_set _ _ _ _ hq] at h
        by_cases hbad : qt ≠ .unset ∧ qt ≠ qtype
        · rw [if_pos hbad] at h
          cases h
        · rw [if_neg hbad] at h
          dsimp only at h
          obtain ⟨rs, hmap, hd⟩ := ih qtype _ d out h
          refine ⟨(qt, sq) :: rs, by simp [hc, hmap], ?_⟩
          rw [hd, firstDomain_cons_set _ _ hq, firstDomain_cons_set _ _ hq]

/-- C17: when an And or Or node compiles, every child compiled and the domain of
the node is the domain of the first child, in child order, whose domain is not
Unset, and Unset when every child is Unset; a child of domain Unset is
reconciled with any domain already chosen without error and leaves it as it
is. -/
theorem and_or_domain (L : RuneLower) (tag : Nat) (htag : tag = FilterAnd ∨ tag = FilterOr)
    (v : String) (cs : List Packet) (d : queryType) (q : String)
    (h : parseFilter L ⟨tag, v, cs⟩ = .ok (d, q)) :
    (∃ rs : List (queryType × String),
      cs.map (parseFilter L) = rs.map Except.ok ∧
      d = firstDomain (rs.map Prod.fst) ∧
      ((∀ r ∈ rs, r.1 = .unset) → d = .unset)) ∧
    ∀ (qtype : queryType) (subs : List String) (sq : String),
      ∃ subs1, reconcile qtype subs .unset sq = .ok (qtype, subs1) := by
  constructor
  · have key : ∃ out, parseChildren L cs .unset [] = .ok (d, out) := by
      rcases htag with ht | ht <;> subst ht
      · rw [parseFilter_and] at h
        cases hp : parseChildren L cs .unset [] with
        | error e =>
          rw [hp] at h
          cases h
        | ok r =>
          obtain ⟨d2, out⟩ := r
          rw [hp] at h
          cases h
          exact ⟨out, rfl⟩
      · rw [parseFilter_or] at h
        cases hp : parseChildren L cs .unset [] with
        | error e =>
          rw [hp] at h
          cases h
        | ok r =>
          obtain ⟨d2, out⟩ := r
          rw [hp] at h
          cases h
          exact ⟨out, rfl⟩
    obtain ⟨out, hp⟩ := key
    obtain ⟨rs, hmap, hd⟩ := parseChildren_domain cs .unset [] d out hp
    rw [firstDomain_cons_unset] at hd
    refine ⟨rs, hmap, hd, ?_⟩
    intro hall
    rw [hd]
    clear hmap hd
    induction rs with
    | nil => rfl
    | cons r rest ih =>
      rw [List.map_cons, hall r (List.mem_cons_self _ _), firstDomain_cons_unset]
      exact ih (fun x hx => hall x (List.mem_cons_of_mem _ hx))
  · intro qtype subs sq
    by_cases hq : qtype = .unset
    · subst hq
      exact ⟨_, reconcile_unset subs .unset sq⟩
    · refine ⟨if sq ≠ "" then subs ++ [sq] else subs, ?_⟩
      rw [reconcile_set _ _ _ _ hq, if_neg (by simp)]

/-- C17 at `(&(cn=a)(objectclass=posixgroup)(mail=b))`: the first child is Unset,
the second gives the domain Groups, the third is Unset. -/
theorem and_or_domain_witness :
    parseFilter asciiLower (FilterNode.And [.EqualityMatch "cn" "a",
        .EqualityMatch "objectclass" "posixgroup", .EqualityMatch "mail" "b"]).toPacket
      = .ok (.groupsQuery, "preferred_name eq 'a' and mail eq 'b'") ∧
    ∃ rs : List (queryType × String),
      (FilterNode.toPackets [.EqualityMatch "cn" "a",
        .EqualityMatch "objectclass" "posixgroup", .EqualityMatch "mail" "b"]).map (parseFilter asciiLower)
        = rs.map Except.ok ∧
      queryType.groupsQuery = firstDomain (rs.map Prod.fst) ∧
      ((∀ r ∈ rs, r.1 = .unset) → queryType.groupsQuery = .unset) :=
  ⟨rfl, (and_or_domain asciiLower FilterAnd (Or.inl rfl) ""
    (FilterNode.toPackets [.EqualityMatch "cn" "a",
      .EqualityMatch "objectclass" "posixgroup", .EqualityMatch "mail" "b"])
    .groupsQuery "preferred_name eq 'a' and mail eq 'b'" rfl).1⟩


/-! ### C18: Not -/

/-- C18: a Not node with no child or with more than one child does not compile;
with one child it fails with the error of the child when the child fails, and
otherwise returns the domain of the child and the expression `"not "` followed
by the expression of the child, or the empty expression when that of the child
is empty. -/
theorem not_node (L : RuneLower) (v : String) :
    (∀ cs : List Packet, cs.length ≠ 1 →
      parseFilter L ⟨FilterNot, v, cs⟩ = .error "not filter must have only one child") ∧
    (∀ (c : Packet) (e : String), parseFilter L c = .error e →
      parseFilter L ⟨FilterNot, v, [c]⟩ = .error e) ∧
    (∀ (c : Packet) (d : queryType) (q : String), parseFilter L c = .ok (d, q) → q ≠ "" →
      parseFilter L ⟨FilterNot, v, [c]⟩ = .ok (d, "not " ++ q)) ∧
    (∀ (c : Packet) (d : queryType), parseFilter L c = .ok (d, "") →
      parseFilter L ⟨FilterNot, v, [c]⟩ = .ok (d, "")) := by
  refine ⟨parseFilter_not_arity v, ?_, ?_, ?_⟩
  · intro c e hc
    rw [parseFilter_not, hc]
  · intro c d q hc hq
    rw [parseFilter_not, hc]
    simp only [ne_eq, hq, not_false_eq_true, if_true]
  · intro c d hc
    rw [parseFilter_not, hc]
    simp only [ne_eq, not_true_eq_false, if_false]

/-- C18 at `(!(cn=a))` and `(!(objectclass=posixgroup))`. -/
theorem not_node_witness :
    parseFilter asciiLower (FilterNode.Not (.EqualityMatch "cn" "a")).toPacket
      = .ok (.unset, "not " ++ "preferred_name eq 'a'") ∧
    parseFilter asciiLower (FilterNode.Not (.EqualityMatch "objectclass" "posixgroup")).toPacket
      = .ok (.groupsQuery, "") :=
  ⟨(not_node asciiLower "").2.2.1 (FilterNode.EqualityMatch "cn" "a").toPacket .unset
      "preferred_name eq 'a'" rfl (by decide),
    (not_node asciiLower "").2.2.2 (FilterNode.EqualityMatch "objectclass" "posixgroup").toPacket
      .groupsQuery rfl⟩

/-! ### C19: the objectclass marker -/

/-- C19: an equality match on objectclass, the attribute in any letter case,
compiles for every value to an empty expression; the domain is Principals
exactly for the values posixaccount, shadowaccount, users, person,
inetorgperson, organizationalperson, Groups exactly for posixgroup and groups,
and Unset for every other value.  The value is compared as given, so the object
classes `mapAccounts` emits (posixAccount, inetOrgPerson, organizationalPerson,
Person, top) give Unset. -/
theorem objectclass_domain (L : RuneLower) (a v : String) (ha : ToLower L a = "objectclass") :
    (∃ d, parseFilter L (FilterNode.EqualityMatch a v).toPacket = .ok (d, "") ∧
      (d = .usersQuery ↔ v ∈ ["posixaccount", "shadowaccount", "users", "person",
        "inetorgperson", "organizationalperson"]) ∧
      (d = .groupsQuery ↔ v ∈ ["posixgroup", "groups"]) ∧
      (d = .unset ↔ v ∉ ["posixaccount", "shadowaccount", "users", "person",
        "inetorgperson", "organizationalperson", "posixgroup", "groups"])) ∧
    ∀ oc ∈ ["posixAccount", "inetOrgPerson", "organizationalPerson", "Person", "top"],
      parseFilter L (FilterNode.EqualityMatch a oc).toPacket = .ok (.unset, "") := by
  constructor
  · rw [toPacket_equality, ha]
    by_cases h1 : v ∈ ["posixaccount", "shadowaccount", "users", "person",
        "inetorgperson", "organizationalperson"]
    · refine ⟨.usersQuery, by simp only [parseEquality, if_true, h1], by simp [h1], ?_, ?_⟩
      · simp only [List.mem_cons, List.mem_singleton, List.mem_nil_iff, or_false] at h1
        rcases h1 with rfl | rfl | rfl | rfl | rfl | rfl <;> decide
      · simp only [List.mem_cons, List.mem_singleton, List.mem_nil_iff, or_false] at h1
        rcases h1 with rfl | rfl | rfl | rfl | rfl | rfl <;> decide
    · by_cases h2 : v ∈ ["posixgroup", "groups"]
      · refine ⟨.groupsQuery, by simp only [parseEquality, if_true, h1, h2, if_false],
          by simp [h1], by simp [h2], ?_⟩
        simp only [List.mem_cons, List.mem_singleton, List.mem_nil_iff, or_false] at h2
        rcases h2 with rfl | rfl <;> decide
      · refine ⟨.unset, by simp only [parseEquality, if_true, h1, h2, if_false],
          by simp [h1], by simp [h2], ?_⟩
        simp only [List.mem_cons, List.mem_singleton, List.mem_nil_iff, or_false, not_or]
          at h1 h2 ⊢
        simp [h1, h2]
  · intro oc hoc
    rw [toPacket_equality, ha]
    simp only [List.mem_cons, List.mem_singleton, List.mem_nil_iff, or_false] at hoc
    rcases hoc with rfl | rfl | rfl | rfl | rfl <;> rfl

/-- C19 at the attribute `objectClass` and the value `posixaccount`. -/
theorem objectclass_domain_witness :
    ToLower asciiLower "objectClass" = "objectclass" ∧
    parseFilter asciiLower (FilterNode.EqualityMatch "objectClass" "posixAccount").toPacket
      = .ok (.unset, "") :=
  ⟨by decide, (objectclass_domain asciiLower "objectClass" "posixaccount" (by decide)).2
    "posixAccount" (by decide)⟩


/-! ### C20: escaping can be undone -/

theorem doubleQuotes_cons_quote (cs : List Char) :
    doubleQuotes (quoteChar :: cs) = quoteChar :: quoteChar :: doubleQuotes cs := by
  simp [doubleQuotes]

theorem doubleQuotes_cons_other (c : Char) (cs : List Char) (h : c ≠ quoteChar) :
    doubleQuotes (c :: cs) = c :: doubleQuotes cs := by
  simp [doubleQuotes, h]

theorem replaceFrom_doubleQuotes (v : List Char) :
    replaceFrom [quoteChar, quoteChar] [quoteChar] 0 (doubleQuotes v) = v := by
  induction v with
  | nil => rfl
  | cons c cs ih =>
    by_cases h : c = quoteChar
    · subst h
      rw [doubleQuotes_cons_quote]
      simp only [replaceFrom, List.isPrefixOf, beq_self_eq_true, Bool.and_self, Bool.true_and,
        if_true, List.length_cons, List.length_nil, List.singleton_append]
      exact congrArg _ ih
    · rw [doubleQuotes_cons_other c cs h]
      have h2 : (quoteChar == c) = false := by
        simp only [beq_eq_false_iff_ne, ne_eq]
        exact fun e => h e.symm
      simp only [replaceFrom, List.isPrefixOf, h2, Bool.false_and, Bool.false_eq_true, if_false]
      exact congrArg _ ih

theorem quoteRunsFrom_doubleQuotes (v : List Char) :
    ∀ cur : Nat, cur % 2 = 0 → ∀ n ∈ quoteRunsFrom (doubleQuotes v) cur, n % 2 = 0 := by
  induction v with
  | nil =>
    intro cur hcur n hn
    have hd : doubleQuotes [] = [] := rfl
    rw [hd] at hn
    unfold quoteRunsFrom at hn
    split_ifs at hn
    · cases hn
    · rw [List.mem_singleton] at hn
      rw [hn]
      exact hcur
  | cons c cs ih =>
    intro cur hcur n hn
    by_cases h : c = quoteChar
    · subst h
      rw [doubleQuotes_cons_quote] at hn
      simp only [quoteRunsFrom, if_true] at hn
      exact ih (cur + 1 + 1) (by omega) n hn
    · rw [doubleQuotes_cons_other c cs h] at hn
      simp only [quoteRunsFrom, h, if_false] at hn
      split_ifs at hn
      · exact ih 0 rfl n hn
      · rcases List.mem_cons.mp hn with he | hin
        · rw [he]
          exact hcur
        · exact ih 0 rfl n hin

theorem closingQuoteFrom_doubleQuotes (v : List Char) :
    ∀ i : Nat, closingQuoteFrom (doubleQuotes v ++ [quoteChar]) false i
      = some (i + (doubleQuotes v).length) := by
  induction v with
  | nil =>
    intro i
    have hd : doubleQuotes [] = [] := rfl
    rw [hd]
    simp [closingQuoteFrom]
  | cons c cs ih =>
    intro i
    by_cases h : c = quoteChar
    · subst h
      rw [doubleQuotes_cons_quote]
      simp only [List.cons_append, closingQuoteFrom, if_true, List.length_cons]
      exact (ih (i + 1 + 1)).trans (congrArg some (by omega))
    · rw [doubleQuotes_cons_other c cs h]
      simp only [List.cons_append, closingQuoteFrom, h, if_false, List.length_cons]
      exact (ih (i + 1)).trans (congrArg some (by omega))

/-- C20: escaping can be undone, so `escapeValue` is injective: replacing, from
left to right, each pair of adjacent quotes of `escapeValue v` by one quote gives
`v` back; every maximal run of quotes in `escapeValue v` has even length; and in
the literal made of `escapeValue v` between two quotes, read with two adjacent
quotes standing for one, the quote that closes the literal is its last
character. -/
theorem escapeValue_reversible (v : String) :
    ReplaceAll (escapeValue v) "''" "'" = v ∧
    (∀ w : String, escapeValue v = escapeValue w → v = w) ∧
    (∀ n ∈ quoteRuns (escapeValue v).data, n % 2 = 0) ∧
    closingQuote ((escapeValue v).data ++ [quoteChar]) = some (escapeValue v).data.length := by
  have hinv : ∀ u : String, ReplaceAll (escapeValue u) "''" "'" = u := by
    intro u
    have h1 : ReplaceAll (escapeValue u) "''" "'"
        = ⟨replaceFrom [quoteChar, quoteChar] [quoteChar] 0 (escapeValue u).data⟩ := rfl
    rw [h1, escapeValue_data, replaceFrom_doubleQuotes]
  refine ⟨hinv v, ?_, ?_, ?_⟩
  · intro w hw
    rw [← hinv v, ← hinv w, hw]
  · rw [escapeValue_data]
    exact quoteRunsFrom_doubleQuotes v.data 0 rfl
  · rw [escapeValue_data]
    unfold closingQuote
    rw [closingQuoteFrom_doubleQuotes, Nat.zero_add]


/-! ### C22: node kinds the compiler has no case for -/

theorem reconcile_unset_empty (qtype : queryType) (subs : List String) :
    reconcile qtype subs .unset "" = .ok (qtype, subs) := by
  by_cases hq : qtype = .unset
  · subst hq
    rw [reconcile_unset]
    rfl
  · rw [reconcile_set _ _ _ _ hq, if_neg (by simp)]
    rfl

/-- A child that compiles to the undetermined domain and the empty expression
leaves the loop over the children as if it were not there. -/
theorem parseChildren_drop {L : RuneLower} (p : Packet) (hp : parseFilter L p = .ok (.unset, ""))
    (pre post : List Packet) :
    ∀ (qtype : queryType) (subs : List String),
      parseChildren L (pre ++ p :: post) qtype subs = parseChildren L (pre ++ post) qtype subs := by
  induction pre with
  | nil =>
    intro qtype subs
    rw [List.nil_append, List.nil_append, parseChildren_cons, hp]
    dsimp only
    rw [reconcile_unset_empty]
  | cons c rest ih =>
    intro qtype subs
    rw [List.cons_append, List.cons_append, parseChildren_cons, parseChildren_cons]
    cases parseFilter L c with
    | error e => rfl
    | ok r =>
      obtain ⟨qt, sq⟩ := r
      dsimp only
      cases reconcile qtype subs qt sq with
      | error e => rfl
      | ok r2 =>
        obtain ⟨q1, s1⟩ := r2
        dsimp only
        exact ih q1 s1

/-- C22: a node whose kind is none of Equality Match, And, Or, Not compiles,
whatever its value and children, to domain Unset with an empty expression and
no error; under Not it gives Unset and the empty expression again, and among
the children of an And or Or node it changes nothing: the node compiles as it
does without that child. -/
theorem other_kind_dropped (L : RuneLower) (tag : Nat) (v : String) (cs : List Packet)
    (h : otherKind tag = true) :
    parseFilter L ⟨tag, v, cs⟩ = .ok (.unset, "") ∧
    (∀ v2 : String, parseFilter L ⟨FilterNot, v2, [⟨tag, v, cs⟩]⟩ = .ok (.unset, "")) ∧
    (∀ (v2 : String) (pre post : List Packet),
      parseFilter L ⟨FilterAnd, v2, pre ++ ⟨tag, v, cs⟩ :: post⟩
        = parseFilter L ⟨FilterAnd, v2, pre ++ post⟩ ∧
      parseFilter L ⟨FilterOr, v2, pre ++ ⟨tag, v, cs⟩ :: post⟩
        = parseFilter L ⟨FilterOr, v2, pre ++ post⟩) := by
  have hp : parseFilter L ⟨tag, v, cs⟩ = .ok (.unset, "") :=
    parseFilter_otherKind tag v cs h
  refine ⟨hp, ?_, ?_⟩
  · intro v2
    rw [parseFilter_not, hp]
    rfl
  · intro v2 pre post
    constructor
    · rw [parseFilter_and, parseFilter_and, parseChildren_drop _ hp]
    · rw [parseFilter_or, parseFilter_or, parseChildren_drop _ hp]

/-- C22 at the presence test `(mail=*)`, alone and in `(&(uid=alice)(mail=*))`,
which compiles like `(&(uid=alice))`. -/
theorem other_kind_dropped_witness :
    otherKind FilterPresent = true ∧
    parseFilter asciiLower mailPresent = .ok (.unset, "") ∧
    parseFilter asciiLower ⟨FilterAnd, "",
        [(FilterNode.EqualityMatch "uid" "alice").toPacket] ++ mailPresent :: []⟩
      = parseFilter asciiLower ⟨FilterAnd, "", [(FilterNode.EqualityMatch "uid" "alice").toPacket] ++ []⟩ ∧
    parseFilter asciiLower ⟨FilterAnd, "", [(FilterNode.EqualityMatch "uid" "alice").toPacket, mailPresent]⟩
      = .ok (.unset, "preferred_name eq 'alice'") :=
  have hw := other_kind_dropped asciiLower FilterPresent "mail" [] (by decide)
  ⟨by decide, hw.1,
    (hw.2.2 "" [(FilterNode.EqualityMatch "uid" "alice").toPacket] []).1, rfl⟩

/-! ### C21: no Principals marker, no lookup -/

theorem parseEquality_not_users (a v : String) (d : queryType) (q : String)
    (hm : (decide (a = "objectclass") &&
      decide (v ∈ ["posixaccount", "shadowaccount", "users", "person",
        "inetorgperson", "organizationalperson"])) = false)
    (h : parseEquality a v = .ok (d, q)) : d ≠ .usersQuery := by
  unfold parseEquality at h
  by_cases ha : a = "objectclass"
  · simp only [ha, decide_True, Bool.true_and, decide_eq_false_iff_not] at hm
    rw [if_pos ha, if_neg hm] at h
    split_ifs at h <;> cases h <;> decide
  · rw [if_neg ha] at h
    split_ifs at h <;> cases h <;> decide

mutual
theorem parseFilter_no_marker {L : RuneLower} :
    (p : Packet) → p.hasUsersMarker L = false →
      ∀ (d : queryType) (q : String), parseFilter L p = .ok (d, q) → d ≠ .usersQuery
  | ⟨tag, v, children⟩, hm => by
    intro d q h
    have hkids : Packet.anyUsersMarker L children = false := by
      unfold Packet.hasUsersMarker at hm
      exact (Bool.or_eq_false_iff.mp hm).2
    have hrec := parseChildren_no_marker children hkids
    rcases FilterMap_cases tag with ⟨hf, ht⟩ | ⟨_, ht⟩ | ⟨_, ht⟩ | ⟨_, ht⟩ | ho
    · subst ht
      unfold Packet.hasUsersMarker at hm
      have hm1 := (Bool.or_eq_false_iff.mp hm).1
      rcases children with _ | ⟨a, _ | ⟨b, _ | ⟨c, rest⟩⟩⟩
      · cases h
      · cases h
      · rw [parseFilter_equality] at h
        simp only [hf, decide_True, Bool.true_and] at hm1
        exact parseEquality_not_users _ _ d q hm1 h
      · cases h
    · subst ht
      rw [parseFilter_and] at h
      cases hp : parseChildren L children .unset [] with
      | error e =>
        rw [hp] at h
        cases h
      | ok r =>
        obtain ⟨d2, out⟩ := r
        rw [hp] at h
        cases h
        exact hrec.1 .unset [] d out (by decide) hp
    · subst ht
      rw [parseFilter_or] at h
      cases hp : parseChildren L children .unset [] with
      | error e =>
        rw [hp] at h
        cases h
      | ok r =>
        obtain ⟨d2, out⟩ := r
        rw [hp] at h
        cases h
        exact hrec.1 .unset [] d out (by decide) hp
    · subst ht
      rcases children with _ | ⟨a, _ | ⟨b, rest⟩⟩
      · cases h
      · rw [parseFilter_not] at h
        cases hp : parseFilter L a with
        | error e =>
          rw [hp] at h
          cases h
        | ok r =>
          obtain ⟨d2, q2⟩ := r
          rw [hp] at h
          cases h
          exact hrec.2 a (List.mem_cons_self _ _) d q2 hp
      · rw [parseFilter_not_arity _ _ (by simp)] at h
        cases h
    · rw [parseFilter_otherKind tag v children ho] at h
      cases h
      decide
theorem parseChildren_no_marker {L : RuneLower} :
    (cs : List Packet) → Packet.anyUsersMarker L cs = false →
      (∀ (qtype : queryType) (subs : List String) (d : queryType) (out : List String),
        qtype ≠ .usersQuery → parseChildren L cs qtype subs = .ok (d, out) → d ≠ .usersQuery) ∧
      (∀ c ∈ cs, ∀ (d : queryType) (q : String), parseFilter L c = .ok (d, q) → d ≠ .usersQuery)
  | [], _ => by
    constructor
    · intro qtype subs d out hq h
      rw [parseChildren_nil] at h
      cases h
      exact hq
    · intro c hc
      cases hc
  | c :: rest, hm => by
    unfold Packet.anyUsersMarker at hm
    obtain ⟨hc, hrest⟩ := Bool.or_eq_false_iff.mp hm
    have ihc := parseFilter_no_marker c hc
    have ihr := parseChildren_no_marker rest hrest
    constructor
    · intro qtype subs d out hq h
      rw [parseChildren_cons] at h
      cases hp : parseFilter L c with
      | error e =>
        rw [hp] at h
        cases h
      | ok r =>
        obtain ⟨qt, sq⟩ := r
        rw [hp] at h
        dsimp only at h
        have hqt := ihc qt sq hp
        by_cases hu : qtype = .unset
        · subst hu
          rw [reconcile_unset] at h
          exact ihr.1 qt _ d out hqt h
        · rw [reconcile_set _ _ _ _ hu] at h
          by_cases hbad : qt ≠ .unset ∧ qt ≠ qtype
          · rw [if_pos hbad] at h
            cases h
          · rw [if_neg hbad] at h
            exact ihr.1 qtype _ d out hq h
    · intro x hx d q hpx
      rcases List.mem_cons.mp hx with rfl | hin
      · exact ihc d q hpx
      · exact ihr.2 x hin d q hpx
end


/-- C21: a filter tree that contains no equality match on objectclass with a
marker value of Principals compiles, when it compiles, to a domain other than
Principals; an authorized `Search` whose filter parses to such a tree and
compiles returns Success with no entries and no error and makes no call to the
accounts service, whatever expression was compiled. -/
theorem no_marker_no_lookup (L : RuneLower) (p : Packet) (hm : p.hasUsersMarker L = false) :
    (∀ (d : queryType) (q : String), parseFilter L p = .ok (d, q) → d ≠ .usersQuery) ∧
    ∀ (CF : String → Except String Packet) (h : ocisHandler) (bindDN : String)
      (req : SearchRequest) (w : World) (d : queryType) (q : String),
      searchGuard L h bindDN req = true → CF req.Filter = .ok p → parseFilter L p = .ok (d, q) →
        (Search L CF h bindDN req w).1.1.ResultCode = .LDAPResultSuccess ∧
        (Search L CF h bindDN req w).1.2 = none ∧
        (Search L CF h bindDN req w).1.1.Entries = [] ∧
        (Search L CF h bindDN req w).2.calls = w.calls := by
  refine ⟨parseFilter_no_marker p hm, ?_⟩
  intro CF h bindDN req w d q hg hcf hp
  have hd : d ≠ .usersQuery := parseFilter_no_marker p hm d q hp
  by_cases hf : req.Filter = "(&)"
  · rw [Search_compiled CF h bindDN req w .unset "" hg (Or.inl ⟨hf, rfl, rfl⟩)]
    exact ⟨rfl, rfl, rfl, rfl⟩
  · rw [Search_compiled CF h bindDN req w d q hg (Or.inr ⟨hf, p, hcf, hp⟩), if_neg hd]
    exact ⟨rfl, rfl, rfl, rfl⟩

/-- C21 at the filter `(uid=alice)`: it compiles to the expression
`preferred_name eq 'alice'` with domain Unset, and the search returns Success
with no entries and no call, although the accounts service would answer with
the account of alice. -/
theorem no_marker_no_lookup_witness :
    (FilterNode.EqualityMatch "uid" "alice").toPacket.hasUsersMarker asciiLower = false ∧
    parseFilter asciiLower (FilterNode.EqualityMatch "uid" "alice").toPacket
      = .ok (.unset, "preferred_name eq 'alice'") ∧
    (Search asciiLower uidCompileFilter exampleHandler "cn=admin,dc=example,dc=com"
      ⟨"dc=example,dc=com", "(uid=alice)"⟩ emptyWorld).1.1.ResultCode = .LDAPResultSuccess ∧
    (Search asciiLower uidCompileFilter exampleHandler "cn=admin,dc=example,dc=com"
      ⟨"dc=example,dc=com", "(uid=alice)"⟩ emptyWorld).1.2 = none ∧
    (Search asciiLower uidCompileFilter exampleHandler "cn=admin,dc=example,dc=com"
      ⟨"dc=example,dc=com", "(uid=alice)"⟩ emptyWorld).1.1.Entries = [] ∧
    (Search asciiLower uidCompileFilter exampleHandler "cn=admin,dc=example,dc=com"
      ⟨"dc=example,dc=com", "(uid=alice)"⟩ emptyWorld).2.calls = emptyWorld.calls :=
  ⟨by rfl, rfl,
    (no_marker_no_lookup asciiLower (FilterNode.EqualityMatch "uid" "alice").toPacket (by rfl)).2
      uidCompileFilter exampleHandler "cn=admin,dc=example,dc=com"
      ⟨"dc=example,dc=com", "(uid=alice)"⟩ emptyWorld .unset "preferred_name eq 'alice'"
      (by rfl) rfl rfl⟩


end Glauth
